import Mathlib

/-!
Shallow embedding of the Campus-Navigation-System algorithm step-trace engine
(`src/backend/src/search.hpp` and `src/backend/src/sort.hpp`) and proofs of the
specification claims about it.

Modelling conventions:
* C++ `int` values (indices, distances, step numbers) are modelled as `Int`;
  no arithmetic here comes near overflow, and `size_t`-to-`int` conversions
  (`v.size() - 1` on an empty vector) are modelled by their two's-complement
  value `-1`, which is what the code relies on.
* C++ `std::string` is modelled as `String`; byte-wise lexicographic comparison
  of UTF-8 strings coincides with the code-point order of `String`'s linear
  order, so `<` on `String` models `std::string::operator<` and
  `std::string::compare`'s sign models the three-way comparison.
* Node coordinates are `double` in the source and are used only (a) passed
  through untouched into responses and (b) inside the Euclidean-distance
  computation `static_cast<int>(sqrt(dx*dx + dy*dy))`.  They are modelled as
  `Int`, with the truncated floating-point square root modelled by the integer
  square root `isqrt`.  No claim proved below depends on the numeric value of
  a distance.
* The graph collaborator (`graph.hpp`, not part of this subsystem's sources)
  is modelled from the spec where needed; see `Graph.getNode?`.
-/

deriving instance DecidableEq for Except

/-- A campus location, as produced by the graph collaborator
(`Node` with fields `id`, `name`, `type`, `x`, `y`). -/
structure Node where
  id : Int
  name : String
  type : String
  x : Int
  y : Int
deriving DecidableEq, Inhabited

/-- The graph collaborator: a dataset of nodes.  `getNodes()` returns the node
vector; `getNode(i)` indexes it by id (the sort engine iterates ids
`0 .. size()-1`, so ids are list positions). -/
structure Graph where
  nodes : List Node
deriving DecidableEq, Inhabited

def Graph.getNodes (g : Graph) : List Node :=
  g.nodes

def Graph.size (g : Graph) : Int :=
  (g.nodes.length : Int)

/-- Modelled from the spec: `graph.hpp` is not among this subsystem's sources;
§7 of the design requires `getNode` on an unknown/out-of-range id to fail with
an InvalidReference condition.  In-range lookup returns the node at that
index. -/
def Graph.getNode? (g : Graph) (i : Int) : Option Node :=
  if h : 0 ≤ i ∧ i < (g.nodes.length : Int) then
    some (g.nodes.get ⟨i.toNat, by omega⟩)
  else
    none

/-- `l[i]` on a `vector<Node>`, total with a default; every use in the
embedded code is in range. -/
def nodeAt (l : List Node) (i : Int) : Node :=
  l.getD i.toNat default

/-- Three-way lexicographic comparison of character lists.  Byte-wise
comparison of UTF-8 strings (what `std::string::compare` and `operator<` do)
coincides with this code-point-wise comparison, because UTF-8 encoding is
order-preserving. -/
def charListCmp : List Char → List Char → Int
  | [], [] => 0
  | [], _ :: _ => -1
  | _ :: _, [] => 1
  | a :: as, b :: bs =>
    if a < b then -1 else if b < a then 1 else charListCmp as bs

/-- Sign of `std::string::compare` (negative / zero / positive); `strCmp a b < 0`
also models `a < b` on `std::string`. -/
def strCmp (a b : String) : Int :=
  charListCmp a.data b.data

/-- One step of the binary search trace (`SearchStep` in `search.hpp`). -/
structure SearchStep where
  stepNum : Int
  action : String
  explanation : String
  left : Int
  right : Int
  mid : Int
  compareNode : Int
  found : Bool
deriving DecidableEq, Inhabited

/-- The mutable state of a `BinarySearchVisualizer`: the recorded steps and
the running step number. -/
structure BSState where
  steps : List SearchStep
  stepNum : Int
deriving DecidableEq, Inhabited

/-- `BinarySearchVisualizer::recordStep`: append one step capturing the given
payload, with the current step number, and advance the counter. -/
def BinarySearchVisualizer.recordStep (action explanation : String)
    (left right mid compareNode : Int) (found : Bool) (s : BSState) : BSState :=
  { steps := s.steps ++
      [{ stepNum := s.stepNum, action := action, explanation := explanation,
         left := left, right := right, mid := mid, compareNode := compareNode,
         found := found }],
    stepNum := s.stepNum + 1 }

/-- The `while (left <= right)` loop of `BinarySearchVisualizer::search`
(lines 69–105 of `search.hpp`).  Returns the state, the value of `foundIndex`,
and the values of `left` and `right` at loop exit (the C++ code reads them
after the loop when recording the "Not found" step).

The loop is embedded with an explicit iteration budget `fuel` so that it is
structurally recursive and computable by the kernel.  Every lemma below
assumes `(right - left + 1).toNat ≤ fuel`; since each iteration strictly
shrinks the range, the budget never runs out under that assumption, and when
`fuel = 0` the assumption forces `right < left`, where the base case returns
exactly what the exhausted loop returns.  `search` passes the array length,
which always suffices. -/
def BinarySearchVisualizer.searchLoop (sortedNodes : List Node)
    (searchQuery : String) :
    Nat → Int → Int → BSState → BSState × Int × Int × Int
  | 0, left, right, s => (s, -1, left, right)
  | fuel + 1, left, right, s =>
    if left ≤ right then
      let mid := left + (right - left) / 2
      let s1 := BinarySearchVisualizer.recordStep "Checking middle element"
        ("Range: [" ++ toString left ++ ", " ++ toString right ++
         "]. Midpoint: " ++ toString mid ++ " (" ++ (nodeAt sortedNodes mid).name ++ ")")
        left right mid mid false s
      let comparison := strCmp searchQuery (nodeAt sortedNodes mid).name
      if comparison = 0 then
        (BinarySearchVisualizer.recordStep "Found!"
          ("\x27" ++ searchQuery ++ "\x27 matches \x27" ++ (nodeAt sortedNodes mid).name ++
           "\x27 at index " ++ toString mid)
          left right mid mid true s1, mid, left, right)
      else if comparison < 0 then
        let s2 := BinarySearchVisualizer.recordStep "Search left half"
          ("\x27" ++ searchQuery ++ "\x27 < \x27" ++ (nodeAt sortedNodes mid).name ++
           "\x27. Discard right half and search left.")
          left (mid - 1) mid mid false s1
        BinarySearchVisualizer.searchLoop sortedNodes searchQuery fuel left (mid - 1) s2
      else
        let s2 := BinarySearchVisualizer.recordStep "Search right half"
          ("\x27" ++ searchQuery ++ "\x27 > \x27" ++ (nodeAt sortedNodes mid).name ++
           "\x27. Discard left half and search right.")
          (mid + 1) right mid mid false s1
        BinarySearchVisualizer.searchLoop sortedNodes searchQuery fuel (mid + 1) right s2
    else
      (s, -1, left, right)

/-- The binary search response (§6 external schema, search side).  `result`
is `some` exactly when the C++ response carries a `result` object; it holds
the full node because the code copies every field of `sortedNodes[foundIndex]`
into it. -/
structure SearchResponse where
  algorithm : String
  query : String
  found : Bool
  result : Option Node
  sortedArray : List (Int × String)
  steps : List SearchStep
  complexity_time : String
  complexity_space : String
  complexity_description : String
deriving DecidableEq, Inhabited

/-- `BinarySearchVisualizer::search`, lines 56–149 of `search.hpp`, given the
result `sortedNodes` of the initial `std::sort` call (the sort itself is
modelled relationally by `IsStdSortByName` below, because `std::sort` leaves
the order of equal-name nodes unspecified). -/
def BinarySearchVisualizer.search (searchQuery : String)
    (sortedNodes : List Node) : SearchResponse :=
  let left : Int := 0
  let right : Int := (sortedNodes.length : Int) - 1
  let s0 : BSState := { steps := [], stepNum := 0 }
  let s1 := BinarySearchVisualizer.recordStep "Starting binary search"
    ("Array is sorted alphabetically. Searching for: " ++ searchQuery)
    left right (-1) (-1) false s0
  let r := BinarySearchVisualizer.searchLoop sortedNodes searchQuery
    sortedNodes.length left right s1
  let s2 := r.1
  let foundIndex := r.2.1
  let leftExit := r.2.2.1
  let rightExit := r.2.2.2
  let s3 := if foundIndex = -1 then
      BinarySearchVisualizer.recordStep "Not found"
        ("Search completed. \x27" ++ searchQuery ++ "\x27 not found in the campus.")
        leftExit rightExit (-1) (-1) false s2
    else s2
  { algorithm := "binary_search",
    query := searchQuery,
    found := foundIndex != -1,
    result := if foundIndex = -1 then none else some (nodeAt sortedNodes foundIndex),
    sortedArray := sortedNodes.map (fun n => (n.id, n.name)),
    steps := s3.steps,
    complexity_time := "O(log n)",
    complexity_space := "O(1)",
    complexity_description := "Iterative binary search on sorted array" }

/-- The contract of the `std::sort` call on lines 57–59 of `search.hpp` with
comparator `a.name < b.name`: the output is a permutation of the input that is
sorted with respect to the comparator (`¬ (b.name < a.name)` for every pair in
order, i.e. non-decreasing names).  The C++ standard guarantees nothing more:
in particular the relative order of equal-name nodes is unspecified. -/
def SortedByName (l : List Node) : Prop :=
  l.Pairwise (fun a b => ¬ (strCmp b.name a.name < 0))

instance (l : List Node) : Decidable (SortedByName l) := by
  unfold SortedByName
  infer_instance

def IsStdSortByName (input output : List Node) : Prop :=
  output.Perm input ∧ SortedByName output

instance (input output : List Node) : Decidable (IsStdSortByName input output) := by
  unfold IsStdSortByName
  infer_instance

/-- One step of the quicksort trace (`SortStep` in `sort.hpp`).  `array` and
`names` hold value copies of the working arrays (`currentStep.array = distances`
copies the vector). -/
structure SortStep where
  stepNum : Int
  action : String
  explanation : String
  array : List Int
  names : List String
  pivotIndex : Int
  leftPointer : Int
  rightPointer : Int
  low : Int
  high : Int
deriving DecidableEq, Inhabited

/-- The mutable state of a `QuickSortVisualizer`: recorded steps, running step
number, and the parallel working arrays `distances` and `names`. -/
structure QSState where
  steps : List SortStep
  stepNum : Int
  distances : List Int
  names : List String
deriving DecidableEq, Inhabited

/-- `QuickSortVisualizer::recordStep`: append one step whose `array`/`names`
payload is a value copy of the working arrays at this instant, and advance the
step counter. -/
def QuickSortVisualizer.recordStep (action explanation : String)
    (pivot left right low high : Int) (s : QSState) : QSState :=
  { s with
    steps := s.steps ++
      [{ stepNum := s.stepNum, action := action, explanation := explanation,
         array := s.distances, names := s.names, pivotIndex := pivot,
         leftPointer := left, rightPointer := right, low := low, high := high }],
    stepNum := s.stepNum + 1 }

/-- `v[i]` on `vector<int>`, total with default `0`; every use in the embedded
code is in range. -/
def intAt (l : List Int) (i : Int) : Int :=
  l.getD i.toNat 0

/-- `v[i]` on `vector<string>`, total with default `""`. -/
def strAt (l : List String) (i : Int) : String :=
  l.getD i.toNat ""

/-- `std::swap(v[i], v[j])`: write `v[j]` at position `i` and the old `v[i]`
at position `j` (both reads from the original list). -/
def listSwap {α : Type} [Inhabited α] (l : List α) (i j : Int) : List α :=
  (l.set i.toNat (l.getD j.toNat default)).set j.toNat (l.getD i.toNat default)

/-- The paired `swap(distances[i], distances[j]); swap(names[i], names[j])`
of `sort.hpp`. -/
def QSState.swapBoth (i j : Int) (s : QSState) : QSState :=
  { s with distances := listSwap s.distances i j, names := listSwap s.names i j }

/-- The `for (int j = low; j < high; j++)` loop of
`QuickSortVisualizer::partition` (lines 75–92 of `sort.hpp`), with an explicit
iteration budget for structural recursion; `partition` passes
`(high - low).toNat`, the exact number of iterations. -/
def QuickSortVisualizer.partitionLoop (pivot low high : Int) :
    Nat → Int → Int → QSState → Int × QSState
  | 0, _, i, s => (i, s)
  | fuel + 1, j, i, s =>
    if j < high then
      let s1 := QuickSortVisualizer.recordStep "Comparing"
        ("Compare " ++ toString (intAt s.distances j) ++ "m (" ++ strAt s.names j ++
         ") with pivot " ++ toString pivot ++ "m")
        high i j low high s
      if intAt s1.distances j < pivot then
        let s2 := QSState.swapBoth (i + 1) j s1
        let s3 := QuickSortVisualizer.recordStep "Swap"
          ("Swapped " ++ strAt s2.names (i + 1) ++ " and " ++ strAt s2.names j ++
           " (both smaller than pivot)")
          high (i + 1) j low high s2
        QuickSortVisualizer.partitionLoop pivot low high fuel (j + 1) (i + 1) s3
      else
        QuickSortVisualizer.partitionLoop pivot low high fuel (j + 1) i s1
    else
      (i, s)

/-- `QuickSortVisualizer::partition` (lines 65–103 of `sort.hpp`): Lomuto
partition of `[low, high]` with the last element as pivot.  Returns the final
pivot index `i + 1` and the new state. -/
def QuickSortVisualizer.partition (low high : Int) (s : QSState) : Int × QSState :=
  let pivot := intAt s.distances high
  let pivotName := strAt s.names high
  let s1 := QuickSortVisualizer.recordStep "Choose pivot"
    ("Selected pivot: " ++ toString pivot ++ "m (" ++ pivotName ++ ") at index " ++
     toString high)
    high (-1) (-1) low high s
  let r := QuickSortVisualizer.partitionLoop pivot low high (high - low).toNat low (low - 1) s1
  let s2 := QSState.swapBoth (r.1 + 1) high r.2
  let s3 := QuickSortVisualizer.recordStep "Place pivot"
    ("Placed pivot " ++ strAt s2.names (r.1 + 1) ++ " at its final position (index " ++
     toString (r.1 + 1) ++ ")")
    (r.1 + 1) (-1) (-1) low high s2
  (r.1 + 1, s3)

/-- `QuickSortVisualizer::quicksort` (lines 105–117 of `sort.hpp`), with an
explicit recursion budget for structural recursion.  Every lemma below assumes
budget ≥ `(high - low + 1).toNat`; a partition call on more than one element
returns a pivot strictly inside the range, so each recursive call shrinks the
range and the budget never runs out; with budget `0` the assumption forces
`high < low`, where returning the state unchanged is exactly the base case.
`sort` passes the array length, which always suffices. -/
def QuickSortVisualizer.quicksort : Nat → Int → Int → QSState → QSState
  | 0, _, _, s => s
  | fuel + 1, low, high, s =>
    if low < high then
      let s1 := QuickSortVisualizer.recordStep "Partition"
        ("Sorting subarray from index " ++ toString low ++ " to " ++ toString high)
        (-1) (-1) (-1) low high s
      let r := QuickSortVisualizer.partition low high s1
      let s2 := QuickSortVisualizer.quicksort fuel low (r.1 - 1) r.2
      QuickSortVisualizer.quicksort fuel (r.1 + 1) high s2
    else
      s

/-- Largest `r ≤ bound` with `r * r ≤ n` (`0` if there is none). -/
def isqrtAux (n : Nat) : Nat → Nat
  | 0 => 0
  | k + 1 => if (k + 1) * (k + 1) ≤ n then k + 1 else isqrtAux n k

/-- Integer square root: the floor of `√n`. -/
def isqrt (n : Nat) : Nat :=
  isqrtAux n n

/-- `static_cast<int>(sqrt(dx*dx + dy*dy))` of lines 133–135 of `sort.hpp`:
Euclidean distance truncated to an integer.  Coordinates are modelled as
integers and the truncated floating-point square root as the integer square
root `isqrt`; no claim below depends on the numeric value of a distance. -/
def nodeDistance (currentNode referenceNode : Node) : Int :=
  let dx := currentNode.x - referenceNode.x
  let dy := currentNode.y - referenceNode.y
  Int.ofNat (isqrt (dx * dx + dy * dy).toNat)

/-- The preprocessing loop of `QuickSortVisualizer::sort` (lines 129–140):
for every node index `i ≠ referenceNodeId`, in index order, the pair
(name, distance from the reference node).  The engine's `names` and
`distances` working arrays are the two projections of this list. -/
def computePairs (g : Graph) (referenceNode : Node) (referenceNodeId : Int) :
    List (String × Int) :=
  ((List.range g.nodes.length).filter (fun i : Nat => (i : Int) ≠ referenceNodeId)).map
    (fun i : Nat => ((nodeAt g.nodes (i : Int)).name,
               nodeDistance (nodeAt g.nodes (i : Int)) referenceNode))

/-- The InvalidReference failure of §7: `referenceId` does not identify an
existing node. -/
inductive SortError where
  | invalidReference
deriving DecidableEq

/-- The quicksort response (§6 external schema, sort side). -/
structure SortResponse where
  algorithm : String
  referenceNode : Int
  referenceName : String
  sortedLocations : List (String × Int)
  steps : List SortStep
  complexity_time_avg : String
  complexity_time_worst : String
  complexity_space : String
  complexity_description : String
deriving DecidableEq, Inhabited

/-- `QuickSortVisualizer::sort` (lines 122–181 of `sort.hpp`).  The graph
lookup `graph.getNode(referenceNodeId)` is modelled from the spec
(`Graph.getNode?`), failing with InvalidReference before any distance
computation or step recording.  `sortedLocations` is built element-wise from
the parallel arrays, i.e. their zip (the arrays always have equal length).
The `time_worst` string is the source's literal bytes `4F 28 6E C3 82 C2 B2 29`,
i.e. `"O(nÂ²)"`. -/
def QuickSortVisualizer.sort (g : Graph) (referenceNodeId : Int) :
    Except SortError SortResponse :=
  match g.getNode? referenceNodeId with
  | none => .error .invalidReference
  | some referenceNode =>
    let pairs := computePairs g referenceNode referenceNodeId
    let s0 : QSState := { steps := [], stepNum := 0,
                          distances := pairs.map Prod.snd,
                          names := pairs.map Prod.fst }
    let s1 := QuickSortVisualizer.recordStep "Initial array"
      ("Sorting " ++ toString s0.distances.length ++
       " buildings by distance from " ++ referenceNode.name)
      (-1) (-1) (-1) 0 ((s0.distances.length : Int) - 1) s0
    let s2 := if s1.distances.isEmpty then s1
      else QuickSortVisualizer.quicksort s1.distances.length 0
        ((s1.distances.length : Int) - 1) s1
    let s3 := QuickSortVisualizer.recordStep "Sorted!"
      ("Array is now sorted by distance from " ++ referenceNode.name)
      (-1) (-1) (-1) 0 ((s2.distances.length : Int) - 1) s2
    .ok { algorithm := "quicksort",
          referenceNode := referenceNodeId,
          referenceName := referenceNode.name,
          sortedLocations := s3.names.zip s3.distances,
          steps := s3.steps,
          complexity_time_avg := "O(n log n)",
          complexity_time_worst := "O(nÂ²)",
          complexity_space := "O(log n)",
          complexity_description := "In-place sorting with random pivot" }

/-! ## Order lemmas for the byte-wise string comparison -/

theorem charListCmp_eq_zero_iff : ∀ (as bs : List Char), charListCmp as bs = 0 ↔ as = bs := by
  intro as
  induction as with
  | nil => intro bs; cases bs <;> simp [charListCmp]
  | cons a as ih =>
    intro bs
    cases bs with
    | nil => simp [charListCmp]
    | cons b bs =>
      simp only [charListCmp, List.cons.injEq]
      split_ifs with h1 h2
      · exact iff_of_false id (by rintro ⟨rfl, -⟩; exact absurd h1 (lt_irrefl _))
      · exact iff_of_false (by norm_num)
          (by rintro ⟨rfl, -⟩; exact absurd h2 (lt_irrefl _))
      · have hab : a = b := le_antisymm (not_lt.mp h2) (not_lt.mp h1)
        rw [ih bs]
        simp [hab]

theorem charListCmp_swap : ∀ (as bs : List Char), charListCmp bs as = - charListCmp as bs := by
  intro as
  induction as with
  | nil => intro bs; cases bs <;> simp [charListCmp]
  | cons a as ih =>
    intro bs
    cases bs with
    | nil => simp [charListCmp]
    | cons b bs =>
      simp only [charListCmp]
      rcases lt_trichotomy a b with h | h | h
      · simp [h, asymm h]
      · subst h
        simp [lt_irrefl, ih]
      · simp [h, asymm h]

theorem charListCmp_cons_lt (a b : Char) (as bs : List Char) :
    charListCmp (a :: as) (b :: bs) < 0 ↔ a < b ∨ (a = b ∧ charListCmp as bs < 0) := by
  simp only [charListCmp]
  split_ifs with h1 h2
  · constructor
    · intro _; exact Or.inl h1
    · intro _; omega
  · constructor
    · intro h; exact absurd h (by omega)
    · rintro (h | ⟨rfl, -⟩)
      · exact absurd h (asymm h2)
      · exact absurd h2 (lt_irrefl _)
  · have hab : a = b := le_antisymm (not_lt.mp h2) (not_lt.mp h1)
    subst hab
    simp [lt_irrefl]

theorem charListCmp_lt_trans : ∀ (as bs cs : List Char),
    charListCmp as bs < 0 → charListCmp bs cs < 0 → charListCmp as cs < 0 := by
  intro as
  induction as with
  | nil =>
    intro bs cs h1 h2
    cases bs with
    | nil => simp [charListCmp] at h1
    | cons b bs =>
      cases cs with
      | nil => simp [charListCmp] at h2
      | cons c cs => simp [charListCmp]
  | cons a as ih =>
    intro bs cs h1 h2
    cases bs with
    | nil => simp [charListCmp] at h1
    | cons b bs =>
      cases cs with
      | nil => simp [charListCmp] at h2
      | cons c cs =>
        rw [charListCmp_cons_lt] at h1 h2 ⊢
        rcases h1 with hab | ⟨rfl, hab⟩
        · rcases h2 with hbc | ⟨rfl, hbc⟩
          · exact Or.inl (hab.trans hbc)
          · exact Or.inl hab
        · rcases h2 with hbc | ⟨rfl, hbc⟩
          · exact Or.inl hbc
          · exact Or.inr ⟨rfl, ih bs cs hab hbc⟩

theorem strCmp_eq_zero_iff (a b : String) : strCmp a b = 0 ↔ a = b := by
  unfold strCmp
  rw [charListCmp_eq_zero_iff]
  constructor
  · intro h
    exact String.ext h
  · intro h
    rw [h]

theorem strCmp_self (a : String) : strCmp a a = 0 :=
  (strCmp_eq_zero_iff a a).mpr rfl

theorem strCmp_swap (a b : String) : strCmp b a = - strCmp a b :=
  charListCmp_swap a.data b.data

theorem strCmp_lt_trans {a b c : String} (h1 : strCmp a b < 0) (h2 : strCmp b c < 0) :
    strCmp a c < 0 :=
  charListCmp_lt_trans a.data b.data c.data h1 h2

theorem strCmp_lt_of_lt_of_le {a b c : String} (h1 : strCmp a b < 0) (h2 : strCmp b c ≤ 0) :
    strCmp a c < 0 := by
  rcases lt_or_eq_of_le h2 with h | h
  · exact strCmp_lt_trans h1 h
  · have hbc : b = c := (strCmp_eq_zero_iff b c).mp h
    rwa [hbc] at h1

theorem strCmp_lt_of_le_of_lt {a b c : String} (h1 : strCmp a b ≤ 0) (h2 : strCmp b c < 0) :
    strCmp a c < 0 := by
  rcases lt_or_eq_of_le h1 with h | h
  · exact strCmp_lt_trans h h2
  · have hab : a = b := (strCmp_eq_zero_iff a b).mp h
    rwa [← hab] at h2

theorem strCmp_ne_of_lt {a b : String} (h : strCmp a b < 0) : a ≠ b := by
  intro hab
  rw [hab, strCmp_self] at h
  exact absurd h (by omega)

/-- Monotonicity of names along a `SortedByName` list, at `Int` indices. -/
theorem sortedByName_nameLe {L : List Node} (h : SortedByName L)
    {i j : Int} (h0 : 0 ≤ i) (hij : i ≤ j) (hj : j < (L.length : Int)) :
    strCmp (nodeAt L i).name (nodeAt L j).name ≤ 0 := by
  rcases eq_or_lt_of_le hij with rfl | hlt
  · rw [strCmp_self]
  · have hjn : j.toNat < L.length := by omega
    have hin : i.toNat < L.length := by omega
    have hp := (List.pairwise_iff_getElem.mp h) i.toNat j.toNat hin hjn (by omega)
    have e1 : nodeAt L i = L[i.toNat] := by
      simp only [nodeAt]
      exact List.getD_eq_getElem _ _ hin
    have e2 : nodeAt L j = L[j.toNat] := by
      simp only [nodeAt]
      exact List.getD_eq_getElem _ _ hjn
    rw [e1, e2]
    have hs := strCmp_swap (L[i.toNat]).name (L[j.toNat]).name
    omega

/-! ## Binary search loop lemmas -/

/-- If the search range is exhausted and both boundary invariants hold, no
node of the array matches the query. -/
theorem no_match_of_exhausted {L : List Node} {q : String} {left right : Int}
    (hlr : right < left)
    (hlow : ∀ k : Int, 0 ≤ k → k < (L.length : Int) → k < left →
      strCmp (nodeAt L k).name q < 0)
    (hhigh : ∀ k : Int, 0 ≤ k → k < (L.length : Int) → right < k →
      strCmp q (nodeAt L k).name < 0) :
    ∀ k : Int, 0 ≤ k → k < (L.length : Int) → (nodeAt L k).name ≠ q := by
  intro k h0 hk
  by_cases hkl : k < left
  · exact strCmp_ne_of_lt (hlow k h0 hk hkl)
  · have hgt := hhigh k h0 hk (by omega)
    intro he
    rw [he, strCmp_self] at hgt
    exact absurd hgt (by omega)

/-- Main loop invariant of the binary search: under the sortedness and
boundary invariants, the loop either reports `-1` and no node matches the
query, or reports an in-range index whose node's name is exactly the query. -/
theorem searchLoop_found_spec (L : List Node) (q : String) :
    ∀ (fuel : Nat) (left right : Int) (s : BSState),
      (right - left + 1).toNat ≤ fuel →
      0 ≤ left → right < (L.length : Int) →
      SortedByName L →
      (∀ k : Int, 0 ≤ k → k < (L.length : Int) → k < left →
        strCmp (nodeAt L k).name q < 0) →
      (∀ k : Int, 0 ≤ k → k < (L.length : Int) → right < k →
        strCmp q (nodeAt L k).name < 0) →
      ((BinarySearchVisualizer.searchLoop L q fuel left right s).2.1 = -1 ∧
        ∀ k : Int, 0 ≤ k → k < (L.length : Int) → (nodeAt L k).name ≠ q) ∨
      (0 ≤ (BinarySearchVisualizer.searchLoop L q fuel left right s).2.1 ∧
       (BinarySearchVisualizer.searchLoop L q fuel left right s).2.1 < (L.length : Int) ∧
       (nodeAt L (BinarySearchVisualizer.searchLoop L q fuel left right s).2.1).name = q) := by
  intro fuel
  induction fuel with
  | zero =>
    intro left right s hfuel h0 hn hs hlow hhigh
    exact Or.inl ⟨rfl, no_match_of_exhausted (by omega) hlow hhigh⟩
  | succ fuel ih =>
    intro left right s hfuel h0 hn hs hlow hhigh
    by_cases hlr : left ≤ right
    · have hmid1 : left ≤ left + (right - left) / 2 := by omega
      have hmid2 : left + (right - left) / 2 ≤ right := by omega
      set mid := left + (right - left) / 2 with hmiddef
      by_cases hc0 : strCmp q (nodeAt L mid).name = 0
      · simp only [BinarySearchVisualizer.searchLoop, ← hmiddef, if_pos hlr, if_pos hc0]
        refine Or.inr ⟨show (0 : Int) ≤ mid by omega,
          show mid < (L.length : Int) by omega, ?_⟩
        show (nodeAt L mid).name = q
        exact ((strCmp_eq_zero_iff q (nodeAt L mid).name).mp hc0).symm
      · by_cases hcneg : strCmp q (nodeAt L mid).name < 0
        · simp only [BinarySearchVisualizer.searchLoop, ← hmiddef, if_pos hlr,
            if_neg hc0, if_pos hcneg]
          refine ih left (mid - 1) _ (by omega) h0 (by omega) hs hlow ?_
          intro k hk0 hkn hk
          rcases eq_or_lt_of_le (show mid ≤ k by omega) with rfl | hkgt
          · exact hcneg
          · exact strCmp_lt_of_lt_of_le hcneg
              (sortedByName_nameLe hs (by omega) (le_of_lt hkgt) hkn)
        · simp only [BinarySearchVisualizer.searchLoop, ← hmiddef, if_pos hlr,
            if_neg hc0, if_neg hcneg]
          refine ih (mid + 1) right _ (by omega) (by omega) hn hs ?_ hhigh
          intro k hk0 hkn hk
          have hswap := strCmp_swap q (nodeAt L mid).name
          have hmq : strCmp (nodeAt L mid).name q < 0 := by omega
          rcases eq_or_lt_of_le (show k ≤ mid by omega) with rfl | hklt
          · exact hmq
          · exact strCmp_lt_of_le_of_lt
              (sortedByName_nameLe hs hk0 (le_of_lt hklt) (by omega)) hmq
    · simp only [BinarySearchVisualizer.searchLoop, if_neg hlr]
      exact Or.inl ⟨by trivial, no_match_of_exhausted (by omega) hlow hhigh⟩

/-- Appending one step preserves the bounds property when the new payload
satisfies it. -/
theorem recordStep_bounds {n : Int} {action explanation : String}
    {left right mid compareNode : Int} {found : Bool} {s : BSState}
    (h : ∀ st ∈ s.steps, st.left ≤ st.right + 1 ∧
      (st.mid ≠ -1 → 0 ≤ st.mid ∧ st.mid < n))
    (h1 : left ≤ right + 1) (h2 : mid ≠ -1 → 0 ≤ mid ∧ mid < n) :
    ∀ st ∈ (BinarySearchVisualizer.recordStep action explanation
        left right mid compareNode found s).steps,
      st.left ≤ st.right + 1 ∧ (st.mid ≠ -1 → 0 ≤ st.mid ∧ st.mid < n) := by
  intro st hst
  simp only [BinarySearchVisualizer.recordStep, List.mem_append,
    List.mem_singleton] at hst
  rcases hst with h' | rfl
  · exact h st h'
  · exact ⟨h1, h2⟩

/-- Bounds invariant of the search loop (towards C7): every recorded step
satisfies `left ≤ right + 1` and an in-range `mid` whenever `mid ≠ -1`, and on
exit `left ≤ right + 1` still holds. -/
theorem searchLoop_bounds_spec (L : List Node) (q : String) :
    ∀ (fuel : Nat) (left right : Int) (s : BSState),
      (right - left + 1).toNat ≤ fuel →
      0 ≤ left → right < (L.length : Int) → left ≤ right + 1 →
      (∀ st ∈ s.steps, st.left ≤ st.right + 1 ∧
        (st.mid ≠ -1 → 0 ≤ st.mid ∧ st.mid < (L.length : Int))) →
      ((∀ st ∈ (BinarySearchVisualizer.searchLoop L q fuel left right s).1.steps,
          st.left ≤ st.right + 1 ∧
          (st.mid ≠ -1 → 0 ≤ st.mid ∧ st.mid < (L.length : Int))) ∧
        (BinarySearchVisualizer.searchLoop L q fuel left right s).2.2.1 ≤
          (BinarySearchVisualizer.searchLoop L q fuel left right s).2.2.2 + 1) := by
  intro fuel
  induction fuel with
  | zero =>
    intro left right s _ _ _ hlr1 hsteps
    exact ⟨hsteps, hlr1⟩
  | succ fuel ih =>
    intro left right s hfuel h0 hn hlr1 hsteps
    by_cases hlr : left ≤ right
    · have hmid1 : left ≤ left + (right - left) / 2 := by omega
      have hmid2 : left + (right - left) / 2 ≤ right := by omega
      set mid := left + (right - left) / 2 with hmiddef
      by_cases hc0 : strCmp q (nodeAt L mid).name = 0
      · simp only [BinarySearchVisualizer.searchLoop, ← hmiddef, if_pos hlr, if_pos hc0]
        refine ⟨?_, by omega⟩
        exact recordStep_bounds
          (recordStep_bounds hsteps (by omega) (fun _ => ⟨by omega, by omega⟩))
          (by omega) (fun _ => ⟨by omega, by omega⟩)
      · by_cases hcneg : strCmp q (nodeAt L mid).name < 0
        · simp only [BinarySearchVisualizer.searchLoop, ← hmiddef, if_pos hlr,
            if_neg hc0, if_pos hcneg]
          refine ih left (mid - 1) _ (by omega) h0 (by omega) (by omega) ?_
          exact recordStep_bounds
            (recordStep_bounds hsteps (by omega) (fun _ => ⟨by omega, by omega⟩))
            (by omega) (fun _ => ⟨by omega, by omega⟩)
        · simp only [BinarySearchVisualizer.searchLoop, ← hmiddef, if_pos hlr,
            if_neg hc0, if_neg hcneg]
          refine ih (mid + 1) right _ (by omega) (by omega) hn (by omega) ?_
          exact recordStep_bounds
            (recordStep_bounds hsteps (by omega) (fun _ => ⟨by omega, by omega⟩))
            (by omega) (fun _ => ⟨by omega, by omega⟩)
    · simp only [BinarySearchVisualizer.searchLoop, if_neg hlr]
      exact ⟨hsteps, hlr1⟩

/-- Step structure of the search loop (towards C10): the loop appends only
`found = false` steps, except that when it reports an index it ends with a
"Checking middle element" step followed by the single `found = true`
"Found!" step, both at the reported index. -/
theorem searchLoop_structure_spec (L : List Node) (q : String) :
    ∀ (fuel : Nat) (left right : Int) (s : BSState),
      0 ≤ left →
      (((BinarySearchVisualizer.searchLoop L q fuel left right s).2.1 = -1 ∧
        ∃ ts, (∀ st ∈ ts, st.found = false) ∧
          (BinarySearchVisualizer.searchLoop L q fuel left right s).1.steps =
            s.steps ++ ts) ∨
       (0 ≤ (BinarySearchVisualizer.searchLoop L q fuel left right s).2.1 ∧
        ∃ ts chk fnd, (∀ st ∈ ts, st.found = false) ∧
          chk.found = false ∧ chk.action = "Checking middle element" ∧
          chk.mid = (BinarySearchVisualizer.searchLoop L q fuel left right s).2.1 ∧
          fnd.found = true ∧ fnd.action = "Found!" ∧
          fnd.mid = (BinarySearchVisualizer.searchLoop L q fuel left right s).2.1 ∧
          (BinarySearchVisualizer.searchLoop L q fuel left right s).1.steps =
            s.steps ++ ts ++ [chk, fnd])) := by
  intro fuel
  induction fuel with
  | zero =>
    intro left right s _
    exact Or.inl ⟨rfl, [], by simp, by simp [BinarySearchVisualizer.searchLoop]⟩
  | succ fuel ih =>
    intro left right s h0
    by_cases hlr : left ≤ right
    · set mid := left + (right - left) / 2 with hmiddef
      have hmid1 : left ≤ mid := by omega
      by_cases hc0 : strCmp q (nodeAt L mid).name = 0
      · simp only [BinarySearchVisualizer.searchLoop, ← hmiddef, if_pos hlr, if_pos hc0]
        refine Or.inr ⟨by omega, [],
          { stepNum := s.stepNum, action := "Checking middle element",
            explanation := "Range: [" ++ toString left ++ ", " ++ toString right ++
              "]. Midpoint: " ++ toString mid ++ " (" ++ (nodeAt L mid).name ++ ")",
            left := left, right := right, mid := mid, compareNode := mid,
            found := false },
          { stepNum := s.stepNum + 1, action := "Found!",
            explanation := "\x27" ++ q ++ "\x27 matches \x27" ++ (nodeAt L mid).name ++
              "\x27 at index " ++ toString mid,
            left := left, right := right, mid := mid, compareNode := mid,
            found := true },
          by simp, rfl, rfl, rfl, rfl, rfl, rfl,
          by simp [BinarySearchVisualizer.recordStep]⟩
      · by_cases hcneg : strCmp q (nodeAt L mid).name < 0
        · simp only [BinarySearchVisualizer.searchLoop, ← hmiddef, if_pos hlr,
            if_neg hc0, if_pos hcneg]
          rcases ih left (mid - 1) _ h0 with ⟨hidx, ts, hts, hsteps⟩ |
            ⟨hidx, ts, chk, fnd, hts, c1, c2, c3, f1, f2, f3, hsteps⟩
          · refine Or.inl ⟨hidx,
              { stepNum := s.stepNum, action := "Checking middle element",
                explanation := "Range: [" ++ toString left ++ ", " ++ toString right ++
                  "]. Midpoint: " ++ toString mid ++ " (" ++ (nodeAt L mid).name ++ ")",
                left := left, right := right, mid := mid, compareNode := mid,
                found := false } ::
              { stepNum := s.stepNum + 1, action := "Search left half",
                explanation := "\x27" ++ q ++ "\x27 < \x27" ++ (nodeAt L mid).name ++
                  "\x27. Discard right half and search left.",
                left := left, right := mid - 1, mid := mid, compareNode := mid,
                found := false } :: ts, ?_, ?_⟩
            · intro st hst
              simp only [List.mem_cons] at hst
              rcases hst with rfl | rfl | hst
              · rfl
              · rfl
              · exact hts st hst
            · rw [hsteps]
              simp [BinarySearchVisualizer.recordStep]
          · refine Or.inr ⟨hidx,
              { stepNum := s.stepNum, action := "Checking middle element",
                explanation := "Range: [" ++ toString left ++ ", " ++ toString right ++
                  "]. Midpoint: " ++ toString mid ++ " (" ++ (nodeAt L mid).name ++ ")",
                left := left, right := right, mid := mid, compareNode := mid,
                found := false } ::
              { stepNum := s.stepNum + 1, action := "Search left half",
                explanation := "\x27" ++ q ++ "\x27 < \x27" ++ (nodeAt L mid).name ++
                  "\x27. Discard right half and search left.",
                left := left, right := mid - 1, mid := mid, compareNode := mid,
                found := false } :: ts, chk, fnd, ?_, c1, c2, c3, f1, f2, f3, ?_⟩
            · intro st hst
              simp only [List.mem_cons] at hst
              rcases hst with rfl | rfl | hst
              · rfl
              · rfl
              · exact hts st hst
            · rw [hsteps]
              simp [BinarySearchVisualizer.recordStep]
        · simp only [BinarySearchVisualizer.searchLoop, ← hmiddef, if_pos hlr,
            if_neg hc0, if_neg hcneg]
          rcases ih (mid + 1) right _ (by omega) with ⟨hidx, ts, hts, hsteps⟩ |
            ⟨hidx, ts, chk, fnd, hts, c1, c2, c3, f1, f2, f3, hsteps⟩
          · refine Or.inl ⟨hidx,
              { stepNum := s.stepNum, action := "Checking middle element",
                explanation := "Range: [" ++ toString left ++ ", " ++ toString right ++
                  "]. Midpoint: " ++ toString mid ++ " (" ++ (nodeAt L mid).name ++ ")",
                left := left, right := right, mid := mid, compareNode := mid,
                found := false } ::
              { stepNum := s.stepNum + 1, action := "Search right half",
                explanation := "\x27" ++ q ++ "\x27 > \x27" ++ (nodeAt L mid).name ++
                  "\x27. Discard left half and search right.",
                left := mid + 1, right := right, mid := mid, compareNode := mid,
                found := false } :: ts, ?_, ?_⟩
            · intro st hst
              simp only [List.mem_cons] at hst
              rcases hst with rfl | rfl | hst
              · rfl
              · rfl
              · exact hts st hst
            · rw [hsteps]
              simp [BinarySearchVisualizer.recordStep]
          · refine Or.inr ⟨hidx,
              { stepNum := s.stepNum, action := "Checking middle element",
                explanation := "Range: [" ++ toString left ++ ", " ++ toString right ++
                  "]. Midpoint: " ++ toString mid ++ " (" ++ (nodeAt L mid).name ++ ")",
                left := left, right := right, mid := mid, compareNode := mid,
                found := false } ::
              { stepNum := s.stepNum + 1, action := "Search right half",
                explanation := "\x27" ++ q ++ "\x27 > \x27" ++ (nodeAt L mid).name ++
                  "\x27. Discard left half and search right.",
                left := mid + 1, right := right, mid := mid, compareNode := mid,
                found := false } :: ts, chk, fnd, ?_, c1, c2, c3, f1, f2, f3, ?_⟩
            · intro st hst
              simp only [List.mem_cons] at hst
              rcases hst with rfl | rfl | hst
              · rfl
              · rfl
              · exact hts st hst
            · rw [hsteps]
              simp [BinarySearchVisualizer.recordStep]
    · simp only [BinarySearchVisualizer.searchLoop, if_neg hlr]
      exact Or.inl ⟨by trivial, [], by simp, by simp⟩

theorem nodeAt_natCast (L : List Node) (i : Nat) (hi : i < L.length) :
    nodeAt L (i : Int) = L[i] := by
  simp only [nodeAt, Int.toNat_natCast]
  exact List.getD_eq_getElem _ _ hi

theorem nodeAt_mem {L : List Node} {i : Int} (h0 : 0 ≤ i) (hi : i < (L.length : Int)) :
    nodeAt L i ∈ L := by
  have h : i.toNat < L.length := by omega
  simp only [nodeAt]
  rw [List.getD_eq_getElem _ _ h]
  exact List.getElem_mem h

/-- Claim C1: for every graph and query, `found = true` iff some node's name
byte-wise equals the query; the `result` field is present iff `found`; and a
present `result` carries exactly the fields of a node of the graph whose name
equals the query. -/
theorem claim_C1_search_found_iff (g : Graph) (q : String) (sortedNodes : List Node)
    (h : IsStdSortByName g.getNodes sortedNodes) :
    ((BinarySearchVisualizer.search q sortedNodes).found = true ↔
      ∃ nd ∈ g.getNodes, nd.name = q) ∧
    ((BinarySearchVisualizer.search q sortedNodes).result.isSome = true ↔
      (BinarySearchVisualizer.search q sortedNodes).found = true) ∧
    (∀ nd, (BinarySearchVisualizer.search q sortedNodes).result = some nd →
      nd ∈ g.getNodes ∧ nd.name = q) := by
  obtain ⟨hperm, hsorted⟩ := h
  obtain ⟨s2, idx, lExit, rExit, hloop⟩ :
      ∃ s2 idx lExit rExit,
        BinarySearchVisualizer.searchLoop sortedNodes q sortedNodes.length 0
          ((sortedNodes.length : Int) - 1)
          (BinarySearchVisualizer.recordStep "Starting binary search"
            ("Array is sorted alphabetically. Searching for: " ++ q)
            0 ((sortedNodes.length : Int) - 1) (-1) (-1) false
            { steps := [], stepNum := 0 }) = (s2, idx, lExit, rExit) :=
    ⟨_, _, _, _, rfl⟩
  have hspec := searchLoop_found_spec sortedNodes q sortedNodes.length 0
    ((sortedNodes.length : Int) - 1)
    (BinarySearchVisualizer.recordStep "Starting binary search"
      ("Array is sorted alphabetically. Searching for: " ++ q)
      0 ((sortedNodes.length : Int) - 1) (-1) (-1) false
      { steps := [], stepNum := 0 })
    (by omega) (by omega) (by omega) hsorted
    (fun k _ _ hk => absurd hk (by omega))
    (fun k _ hkn hk => absurd hkn (by omega))
  rw [hloop] at hspec
  have hfound : (BinarySearchVisualizer.search q sortedNodes).found = (idx != -1) := by
    simp only [BinarySearchVisualizer.search]
    rw [hloop]
  have hres : (BinarySearchVisualizer.search q sortedNodes).result =
      (if idx = -1 then none else some (nodeAt sortedNodes idx)) := by
    simp only [BinarySearchVisualizer.search]
    rw [hloop]
  rcases hspec with ⟨hidx, hnone⟩ | ⟨hge, hlt, hname⟩
  · have hidx' : idx = -1 := hidx
    have hnomatch : ¬ ∃ nd ∈ g.getNodes, nd.name = q := by
      rintro ⟨nd, hmemg, hnm⟩
      have hmem : nd ∈ sortedNodes := hperm.mem_iff.mpr hmemg
      obtain ⟨i, hi, hEl⟩ := List.mem_iff_getElem.mp hmem
      have hni := hnone (i : Int) (by omega) (by omega)
      rw [nodeAt_natCast _ _ hi, hEl] at hni
      exact hni hnm
    refine ⟨iff_of_false ?_ hnomatch, ?_, ?_⟩
    · rw [hfound, hidx']
      simp
    · rw [hres, if_pos hidx', hfound, hidx']
      simp
    · intro nd hnd
      rw [hres, if_pos hidx'] at hnd
      exact absurd hnd (by simp)
  · have hge' : (0 : Int) ≤ idx := hge
    have hlt' : idx < (sortedNodes.length : Int) := hlt
    have hname' : (nodeAt sortedNodes idx).name = q := hname
    have hne : idx ≠ -1 := by omega
    have hmemg : nodeAt sortedNodes idx ∈ g.getNodes :=
      hperm.mem_iff.mp (nodeAt_mem hge' hlt')
    refine ⟨iff_of_true ?_ ⟨nodeAt sortedNodes idx, hmemg, hname'⟩, ?_, ?_⟩
    · rw [hfound]
      simpa using hne
    · rw [hres, if_neg hne, hfound]
      simpa using hne
    · intro nd hnd
      rw [hres, if_neg hne] at hnd
      have : nodeAt sortedNodes idx = nd := by
        injection hnd
      rw [← this]
      exact ⟨hmemg, hname'⟩

/-- Claim C7: at every recorded step of a binary search trace,
`left ≤ right + 1`, and whenever the step's `mid` is not `-1` it is an index
into the sorted array: `0 ≤ mid < size`. -/
theorem claim_C7_step_bounds (g : Graph) (q : String) (sortedNodes : List Node)
    (_h : IsStdSortByName g.getNodes sortedNodes) :
    ∀ st ∈ (BinarySearchVisualizer.search q sortedNodes).steps,
      st.left ≤ st.right + 1 ∧
      (st.mid ≠ -1 → 0 ≤ st.mid ∧ st.mid < (sortedNodes.length : Int)) := by
  obtain ⟨s2, idx, lExit, rExit, hloop⟩ :
      ∃ s2 idx lExit rExit,
        BinarySearchVisualizer.searchLoop sortedNodes q sortedNodes.length 0
          ((sortedNodes.length : Int) - 1)
          (BinarySearchVisualizer.recordStep "Starting binary search"
            ("Array is sorted alphabetically. Searching for: " ++ q)
            0 ((sortedNodes.length : Int) - 1) (-1) (-1) false
            { steps := [], stepNum := 0 }) = (s2, idx, lExit, rExit) :=
    ⟨_, _, _, _, rfl⟩
  have hb := searchLoop_bounds_spec sortedNodes q sortedNodes.length 0
    ((sortedNodes.length : Int) - 1)
    (BinarySearchVisualizer.recordStep "Starting binary search"
      ("Array is sorted alphabetically. Searching for: " ++ q)
      0 ((sortedNodes.length : Int) - 1) (-1) (-1) false
      { steps := [], stepNum := 0 })
    (by omega) (by omega) (by omega) (by omega)
    (recordStep_bounds (by intro st hst; simp at hst) (by omega)
      (fun hm => absurd rfl hm))
  rw [hloop] at hb
  have hstepsP : ∀ st ∈ s2.steps, st.left ≤ st.right + 1 ∧
      (st.mid ≠ -1 → 0 ≤ st.mid ∧ st.mid < (sortedNodes.length : Int)) := hb.1
  have hexit : lExit ≤ rExit + 1 := hb.2
  intro st hst
  rw [show (BinarySearchVisualizer.search q sortedNodes).steps =
      (if idx = -1 then
        BinarySearchVisualizer.recordStep "Not found"
          ("Search completed. \x27" ++ q ++ "\x27 not found in the campus.")
          lExit rExit (-1) (-1) false s2
      else s2).steps from by
    simp only [BinarySearchVisualizer.search]; rw [hloop]] at hst
  by_cases hidx : idx = -1
  · rw [if_pos hidx] at hst
    exact recordStep_bounds hstepsP hexit (fun hm => absurd rfl hm) st hst
  · rw [if_neg hidx] at hst
    exact hstepsP st hst

/-- Claim C10: every binary search trace has at most one step with
`found = true`; when the query is not found every step has `found = false`;
and when it is found, the trace ends with the "Checking middle element" step
at the matching index immediately followed by the final "Found!" step, all
earlier steps having `found = false`. -/
theorem claim_C10_single_found_step (q : String) (sortedNodes : List Node) :
    ((BinarySearchVisualizer.search q sortedNodes).steps.countP (·.found) ≤ 1) ∧
    ((BinarySearchVisualizer.search q sortedNodes).found = false →
      ∀ st ∈ (BinarySearchVisualizer.search q sortedNodes).steps, st.found = false) ∧
    ((BinarySearchVisualizer.search q sortedNodes).found = true →
      ∃ pre chk fnd,
        (BinarySearchVisualizer.search q sortedNodes).steps = pre ++ [chk, fnd] ∧
        (∀ st ∈ pre, st.found = false) ∧
        chk.found = false ∧ chk.action = "Checking middle element" ∧
        chk.mid = fnd.mid ∧
        fnd.found = true ∧ fnd.action = "Found!") := by
  obtain ⟨s2, idx, lExit, rExit, hloop⟩ :
      ∃ s2 idx lExit rExit,
        BinarySearchVisualizer.searchLoop sortedNodes q sortedNodes.length 0
          ((sortedNodes.length : Int) - 1)
          (BinarySearchVisualizer.recordStep "Starting binary search"
            ("Array is sorted alphabetically. Searching for: " ++ q)
            0 ((sortedNodes.length : Int) - 1) (-1) (-1) false
            { steps := [], stepNum := 0 }) = (s2, idx, lExit, rExit) :=
    ⟨_, _, _, _, rfl⟩
  obtain ⟨st0, hst0⟩ :
      ∃ st0, (BinarySearchVisualizer.recordStep "Starting binary search"
        ("Array is sorted alphabetically. Searching for: " ++ q)
        0 ((sortedNodes.length : Int) - 1) (-1) (-1) false
        { steps := [], stepNum := 0 }).steps = [st0] :=
    ⟨_, rfl⟩
  have hst0found : st0.found = false := by
    have hst0eq : st0 =
        { stepNum := 0, action := "Starting binary search",
          explanation := "Array is sorted alphabetically. Searching for: " ++ q,
          left := 0, right := (sortedNodes.length : Int) - 1, mid := -1,
          compareNode := -1, found := false } := by
      have h' := hst0
      simp only [BinarySearchVisualizer.recordStep, List.nil_append,
        List.cons.injEq, and_true] at h'
      exact h'.symm
    rw [hst0eq]
  have hstruct := searchLoop_structure_spec sortedNodes q sortedNodes.length 0
    ((sortedNodes.length : Int) - 1)
    (BinarySearchVisualizer.recordStep "Starting binary search"
      ("Array is sorted alphabetically. Searching for: " ++ q)
      0 ((sortedNodes.length : Int) - 1) (-1) (-1) false
      { steps := [], stepNum := 0 })
    (by omega)
  rw [hloop] at hstruct
  have hfound : (BinarySearchVisualizer.search q sortedNodes).found = (idx != -1) := by
    simp only [BinarySearchVisualizer.search]
    rw [hloop]
  have hstepsResp : (BinarySearchVisualizer.search q sortedNodes).steps =
      (if idx = -1 then
        BinarySearchVisualizer.recordStep "Not found"
          ("Search completed. \x27" ++ q ++ "\x27 not found in the campus.")
          lExit rExit (-1) (-1) false s2
      else s2).steps := by
    simp only [BinarySearchVisualizer.search]
    rw [hloop]
  rcases hstruct with ⟨hidx, ts, hts, hsteps⟩ |
    ⟨hge, ts, chk, fnd, hts, c1, c2, c3, f1, f2, f3, hsteps⟩
  · have hidx' : idx = -1 := hidx
    have hsteps2 : s2.steps = st0 :: ts := by
      have h' : s2.steps = (BinarySearchVisualizer.recordStep "Starting binary search"
          ("Array is sorted alphabetically. Searching for: " ++ q)
          0 ((sortedNodes.length : Int) - 1) (-1) (-1) false
          { steps := [], stepNum := 0 }).steps ++ ts := hsteps
      rw [hst0] at h'
      simpa using h'
    have hallfalse : ∀ st ∈ (BinarySearchVisualizer.search q sortedNodes).steps,
        st.found = false := by
      intro st hst
      rw [hstepsResp, if_pos hidx'] at hst
      simp only [BinarySearchVisualizer.recordStep, hsteps2] at hst
      rcases List.mem_append.mp hst with hst' | hst'
      · rcases List.mem_cons.mp hst' with rfl | hst''
        · exact hst0found
        · exact hts st hst''
      · simp only [List.mem_singleton] at hst'
        rw [hst']
    refine ⟨?_, fun _ => hallfalse, ?_⟩
    · have : (BinarySearchVisualizer.search q sortedNodes).steps.countP (·.found) = 0 := by
        rw [List.countP_eq_zero]
        intro st hst
        simp [hallfalse st hst]
      omega
    · intro hf
      rw [hfound, hidx'] at hf
      simp at hf
  · have hge' : (0 : Int) ≤ idx := hge
    have hidxne : idx ≠ -1 := by omega
    have hsteps2 : s2.steps = (st0 :: ts) ++ [chk, fnd] := by
      have h' : s2.steps = (BinarySearchVisualizer.recordStep "Starting binary search"
          ("Array is sorted alphabetically. Searching for: " ++ q)
          0 ((sortedNodes.length : Int) - 1) (-1) (-1) false
          { steps := [], stepNum := 0 }).steps ++ ts ++ [chk, fnd] := hsteps
      rw [hst0] at h'
      simpa using h'
    have hstepsResp2 : (BinarySearchVisualizer.search q sortedNodes).steps =
        (st0 :: ts) ++ [chk, fnd] := by
      rw [hstepsResp, if_neg hidxne]
      exact hsteps2
    have hprefalse : ∀ st ∈ st0 :: ts, st.found = false := by
      intro st hst
      rcases List.mem_cons.mp hst with rfl | hst'
      · exact hst0found
      · exact hts st hst'
    refine ⟨?_, ?_, ?_⟩
    · rw [hstepsResp2, List.countP_append]
      have h0 : (st0 :: ts).countP (·.found) = 0 := by
        rw [List.countP_eq_zero]
        intro st hst
        simp [hprefalse st hst]
      rw [h0]
      simp [List.countP_cons, c1, f1]
    · intro hf
      rw [hfound] at hf
      simp [hidxne] at hf
    · intro _
      exact ⟨st0 :: ts, chk, fnd, hstepsResp2, hprefalse, c1, c2,
        c3.trans ((f3).symm), f1, f2⟩

/-- Claim C5 (refuting evidence): the contract of the `std::sort` call the
code relies on does not determine the output on a dataset with two distinct
nodes sharing one name: both relative orders satisfy it.  `std::sort` is
permitted to produce either, so the code does not guarantee the stable,
original-order tie-break the specification requires (that would need
`std::stable_sort`). -/
theorem claim_C5_stdsort_unstable_contract :
    IsStdSortByName [⟨0, "A", "t", 0, 0⟩, ⟨1, "A", "t", 1, 1⟩]
      [⟨0, "A", "t", 0, 0⟩, ⟨1, "A", "t", 1, 1⟩] ∧
    IsStdSortByName [⟨0, "A", "t", 0, 0⟩, ⟨1, "A", "t", 1, 1⟩]
      [⟨1, "A", "t", 1, 1⟩, ⟨0, "A", "t", 0, 0⟩] ∧
    ([⟨0, "A", "t", 0, 0⟩, ⟨1, "A", "t", 1, 1⟩] : List Node) ≠
      [⟨1, "A", "t", 1, 1⟩, ⟨0, "A", "t", 0, 0⟩] := by
  refine ⟨⟨?_, ?_⟩, ⟨?_, ?_⟩, by decide⟩
  · decide
  · decide
  · decide
  · decide

/-- Claim C8: an empty dataset is not an error.  Binary search on the empty
array reports `found = false`, an empty `sortedArray`, and a trace of exactly
the start step and the "Not found" step; quicksort with a valid reference
over a dataset with no other nodes succeeds with empty `sortedLocations` and
a trace of exactly the "Initial array" and "Sorted!" steps. -/
theorem claim_C8_empty_dataset :
    (∀ q : String,
      (BinarySearchVisualizer.search q []).found = false ∧
      (BinarySearchVisualizer.search q []).sortedArray = [] ∧
      (BinarySearchVisualizer.search q []).steps.map (fun st => st.action) =
        ["Starting binary search", "Not found"]) ∧
    (∀ nd : Node, ∃ resp,
      QuickSortVisualizer.sort ⟨[nd]⟩ 0 = .ok resp ∧
      resp.sortedLocations = [] ∧
      resp.steps.map (fun st => st.action) = ["Initial array", "Sorted!"]) := by
  refine ⟨fun q => ⟨rfl, rfl, rfl⟩, fun nd => ⟨_, rfl, rfl, rfl⟩⟩

/-- Claim C6 (graph lookup modelled from the spec): when `referenceNodeId`
does not identify an existing node, `sort` fails with the InvalidReference
condition.  The check happens on the `graph.getNode(referenceNodeId)` call,
before the distance loop runs and before any `recordStep` call, and the error
carries no response: no partial trace is observable and no working state
survives the invocation. -/
theorem claim_C6_invalid_reference (g : Graph) (refId : Int)
    (h : ¬ (0 ≤ refId ∧ refId < (g.nodes.length : Int))) :
    QuickSortVisualizer.sort g refId = .error .invalidReference := by
  unfold QuickSortVisualizer.sort
  rw [show g.getNode? refId = none from by unfold Graph.getNode?; rw [dif_neg h]]

theorem claim_C6_witness :
    ¬ (0 ≤ (5 : Int) ∧ (5 : Int) < (([⟨0, "A", "t", 0, 0⟩] : List Node).length : Int)) ∧
    QuickSortVisualizer.sort ⟨[⟨0, "A", "t", 0, 0⟩]⟩ 5 = .error .invalidReference :=
  ⟨by decide, claim_C6_invalid_reference ⟨[⟨0, "A", "t", 0, 0⟩]⟩ 5 (by decide)⟩

/-- Claim C9 (counterexample): at a concrete valid invocation the response's
`time_worst` string is the source's literal "O(nÂ²)" (bytes
`4F 28 6E C3 82 C2 B2 29`), which is not the string "O(n^2)" that the claim
fixes. -/
theorem claim_C9_counterexample :
    (QuickSortVisualizer.sort ⟨[⟨0, "A", "t", 0, 0⟩]⟩ 0).map
      (fun r => r.complexity_time_worst) = .ok "O(nÂ²)" ∧
    ("O(nÂ²)" : String) ≠ "O(n^2)" :=
  ⟨rfl, by decide⟩

/-- Claim C9 (amended): for every successful invocation, the complexity
object carries exactly `time_avg = "O(n log n)"`,
`time_worst = "O(nÂ²)"` (the source's literal bytes) and
`space = "O(log n)"`. -/
theorem claim_C9_complexity_strings (g : Graph) (refId : Int)
    (resp : SortResponse) (h : QuickSortVisualizer.sort g refId = .ok resp) :
    resp.complexity_time_avg = "O(n log n)" ∧
    resp.complexity_time_worst = "O(nÂ²)" ∧
    resp.complexity_space = "O(log n)" := by
  unfold QuickSortVisualizer.sort at h
  cases hg : g.getNode? refId with
  | none =>
    rw [hg] at h
    exact absurd h (by simp)
  | some nd =>
    rw [hg] at h
    simp only [Except.ok.injEq] at h
    rw [← h]
    exact ⟨rfl, rfl, rfl⟩

theorem claim_C9_witness :
    ∃ resp, QuickSortVisualizer.sort ⟨[⟨0, "A", "t", 0, 0⟩]⟩ 0 = .ok resp ∧
      resp.complexity_time_avg = "O(n log n)" ∧
      resp.complexity_time_worst = "O(nÂ²)" ∧
      resp.complexity_space = "O(log n)" :=
  ⟨_, rfl, claim_C9_complexity_strings ⟨[⟨0, "A", "t", 0, 0⟩]⟩ 0 _ rfl⟩

theorem claim_C1_witness :
    IsStdSortByName
      (Graph.getNodes ⟨[⟨1, "B", "t", 1, 1⟩, ⟨0, "A", "t", 0, 0⟩]⟩)
      [⟨0, "A", "t", 0, 0⟩, ⟨1, "B", "t", 1, 1⟩] ∧
    (((BinarySearchVisualizer.search "B"
        [⟨0, "A", "t", 0, 0⟩, ⟨1, "B", "t", 1, 1⟩]).found = true ↔
      ∃ nd ∈ Graph.getNodes ⟨[⟨1, "B", "t", 1, 1⟩, ⟨0, "A", "t", 0, 0⟩]⟩,
        nd.name = "B") ∧
     ((BinarySearchVisualizer.search "B"
        [⟨0, "A", "t", 0, 0⟩, ⟨1, "B", "t", 1, 1⟩]).result.isSome = true ↔
      (BinarySearchVisualizer.search "B"
        [⟨0, "A", "t", 0, 0⟩, ⟨1, "B", "t", 1, 1⟩]).found = true) ∧
     (∀ nd, (BinarySearchVisualizer.search "B"
        [⟨0, "A", "t", 0, 0⟩, ⟨1, "B", "t", 1, 1⟩]).result = some nd →
      nd ∈ Graph.getNodes ⟨[⟨1, "B", "t", 1, 1⟩, ⟨0, "A", "t", 0, 0⟩]⟩ ∧
      nd.name = "B")) :=
  ⟨by decide, claim_C1_search_found_iff ⟨[⟨1, "B", "t", 1, 1⟩, ⟨0, "A", "t", 0, 0⟩]⟩
    "B" [⟨0, "A", "t", 0, 0⟩, ⟨1, "B", "t", 1, 1⟩] (by decide)⟩

theorem claim_C7_witness :
    IsStdSortByName
      (Graph.getNodes ⟨[⟨1, "B", "t", 1, 1⟩, ⟨0, "A", "t", 0, 0⟩]⟩)
      [⟨0, "A", "t", 0, 0⟩, ⟨1, "B", "t", 1, 1⟩] ∧
    ∀ st ∈ (BinarySearchVisualizer.search "B"
        [⟨0, "A", "t", 0, 0⟩, ⟨1, "B", "t", 1, 1⟩]).steps,
      st.left ≤ st.right + 1 ∧
      (st.mid ≠ -1 → 0 ≤ st.mid ∧
        st.mid < (([⟨0, "A", "t", 0, 0⟩, ⟨1, "B", "t", 1, 1⟩] : List Node).length : Int)) :=
  ⟨by decide, claim_C7_step_bounds ⟨[⟨1, "B", "t", 1, 1⟩, ⟨0, "A", "t", 0, 0⟩]⟩
    "B" [⟨0, "A", "t", 0, 0⟩, ⟨1, "B", "t", 1, 1⟩] (by decide)⟩

/-! ## Swap lemmas -/

theorem listSwap_length {α : Type} [Inhabited α] (l : List α) (i j : Int) :
    (listSwap l i j).length = l.length := by
  simp [listSwap]

theorem listSwap_eq_set {α : Type} [Inhabited α] (l : List α) {i j : Int}
    (hi : 0 ≤ i) (hi2 : i < (l.length : Int)) (_hj : 0 ≤ j) (hj2 : j < (l.length : Int)) :
    listSwap l i j =
      (l.set i.toNat l[j.toNat]).set j.toNat l[i.toNat] := by
  have hin : i.toNat < l.length := by omega
  have hjn : j.toNat < l.length := by omega
  unfold listSwap
  rw [List.getD_eq_getElem _ _ hin, List.getD_eq_getElem _ _ hjn]

theorem getD_listSwap {α : Type} [Inhabited α] (l : List α) (d : α) {i j k : Int}
    (hi : 0 ≤ i) (hi2 : i < (l.length : Int)) (hj : 0 ≤ j) (hj2 : j < (l.length : Int))
    (hk : 0 ≤ k) (hk2 : k < (l.length : Int)) :
    (listSwap l i j).getD k.toNat d =
      if k = j then l.getD i.toNat d
      else if k = i then l.getD j.toNat d
      else l.getD k.toNat d := by
  have hin : i.toNat < l.length := by omega
  have hjn : j.toNat < l.length := by omega
  have hkn : k.toNat < l.length := by omega
  rw [listSwap_eq_set l hi hi2 hj hj2]
  have hlen2 : k.toNat <
      ((l.set i.toNat l[j.toNat]).set j.toNat l[i.toNat]).length := by
    simpa using hkn
  rw [List.getD_eq_getElem _ _ hlen2, List.getElem_set, List.getElem_set]
  by_cases h1 : k = j
  · rw [if_pos (show j.toNat = k.toNat by omega), if_pos h1,
      List.getD_eq_getElem _ _ hin]
  · rw [if_neg (show ¬ j.toNat = k.toNat by omega), if_neg h1]
    by_cases h2 : k = i
    · rw [if_pos (show i.toNat = k.toNat by omega), if_pos h2,
        List.getD_eq_getElem _ _ hjn]
    · rw [if_neg (show ¬ i.toNat = k.toNat by omega), if_neg h2,
        List.getD_eq_getElem _ _ hkn]

/-- `t[m] :: t.set m x` is a permutation of `x :: t`. -/
theorem getElem_cons_set_perm {α : Type} :
    ∀ (t : List α) (m : Nat) (x : α) (hm : m < t.length),
      (t[m] :: t.set m x).Perm (x :: t) := by
  intro t
  induction t with
  | nil => intro m x hm; simp at hm
  | cons y s ih =>
    intro m x hm
    cases m with
    | zero =>
      simpa using List.Perm.swap x y s
    | succ m' =>
      have hm' : m' < s.length := by simpa using hm
      have h1 : ((y :: s)[m' + 1] :: (y :: s).set (m' + 1) x) =
          s[m'] :: y :: s.set m' x := by simp
      rw [h1]
      exact (List.Perm.swap y (s[m']) (s.set m' x)).trans
        (((ih m' x hm').cons y).trans (List.Perm.swap x y s))

theorem listSwap_perm {α : Type} [Inhabited α] {l : List α} {i j : Int}
    (hi : 0 ≤ i) (hi2 : i < (l.length : Int)) (hj : 0 ≤ j) (hj2 : j < (l.length : Int)) :
    (listSwap l i j).Perm l := by
  rw [listSwap_eq_set l hi hi2 hj hj2]
  have main : ∀ (t : List α) (a b : Nat) (ha : a < t.length) (hb : b < t.length),
      ((t.set a (t[b])).set b (t[a])).Perm t := by
    intro t
    induction t with
    | nil => intro a b ha _; simp at ha
    | cons y s ihs =>
      intro a b ha hb
      cases a with
      | zero =>
        cases b with
        | zero => simp
        | succ m =>
          have hm : m < s.length := by simpa using hb
          have he : (((y :: s).set 0 ((y :: s)[m + 1])).set (m + 1) ((y :: s)[0])) =
              s[m] :: s.set m y := by simp
          rw [he]
          exact getElem_cons_set_perm s m y hm
      | succ k =>
        cases b with
        | zero =>
          have hk : k < s.length := by simpa using ha
          have he : (((y :: s).set (k + 1) ((y :: s)[0])).set 0 ((y :: s)[k + 1])) =
              s[k] :: s.set k y := by simp
          rw [he]
          exact getElem_cons_set_perm s k y hk
        | succ m =>
          have hk : k < s.length := by simpa using ha
          have hm : m < s.length := by simpa using hb
          have he : (((y :: s).set (k + 1) ((y :: s)[m + 1])).set (m + 1) ((y :: s)[k + 1])) =
              y :: ((s.set k (s[m])).set m (s[k])) := by simp
          rw [he]
          exact (ihs k m hk hm).cons y
  exact main l i.toNat j.toNat (by omega) (by omega)

theorem zip_listSwap {d : List Int} {nm : List String} {i j : Int}
    (hlen : nm.length = d.length)
    (hi : 0 ≤ i) (hi2 : i < (d.length : Int)) (hj : 0 ≤ j) (hj2 : j < (d.length : Int)) :
    (listSwap nm i j).zip (listSwap d i j) = listSwap (nm.zip d) i j := by
  have hzlen : (nm.zip d).length = d.length := by simp [hlen]
  refine List.ext_getElem (by simp [listSwap_length, hzlen, hlen]) ?_
  intro k hk1 hk2
  have hkd : k < d.length := by
    have := listSwap_length (nm.zip d) i j
    omega
  have hkn : k < nm.length := by omega
  rw [List.getElem_zip]
  have hswapN := listSwap_eq_set nm (i := i) (j := j) hi (by omega) hj (by omega)
  have hswapD := listSwap_eq_set d (i := i) (j := j) hi hi2 hj hj2
  have hswapZ := listSwap_eq_set (nm.zip d) (i := i) (j := j) hi (by omega) hj (by omega)
  simp only [hswapN, hswapD, hswapZ, List.getElem_set]
  split_ifs <;> simp [List.getElem_zip]

/-! ## Quicksort state lemmas -/

theorem recordStepQ_distances (action explanation : String) (p l r lo hi : Int)
    (s : QSState) :
    (QuickSortVisualizer.recordStep action explanation p l r lo hi s).distances =
      s.distances := rfl

theorem recordStepQ_names (action explanation : String) (p l r lo hi : Int)
    (s : QSState) :
    (QuickSortVisualizer.recordStep action explanation p l r lo hi s).names =
      s.names := rfl

theorem recordStepQ_steps (action explanation : String) (p l r lo hi : Int)
    (s : QSState) :
    (QuickSortVisualizer.recordStep action explanation p l r lo hi s).steps =
      s.steps ++
        [{ stepNum := s.stepNum, action := action, explanation := explanation,
           array := s.distances, names := s.names, pivotIndex := p,
           leftPointer := l, rightPointer := r, low := lo, high := hi }] := rfl

theorem swapBoth_distances (i j : Int) (s : QSState) :
    (QSState.swapBoth i j s).distances = listSwap s.distances i j := rfl

theorem swapBoth_names (i j : Int) (s : QSState) :
    (QSState.swapBoth i j s).names = listSwap s.names i j := rfl

theorem swapBoth_steps (i j : Int) (s : QSState) :
    (QSState.swapBoth i j s).steps = s.steps := rfl

theorem exists_append_trans {α : Type} {l1 l2 l3 : List α}
    (h1 : ∃ ts, l2 = l1 ++ ts) (h2 : ∃ ts, l3 = l2 ++ ts) : ∃ ts, l3 = l1 ++ ts := by
  obtain ⟨a, ha⟩ := h1
  obtain ⟨b, hb⟩ := h2
  exact ⟨a ++ b, by rw [hb, ha, List.append_assoc]⟩

/-- The partition scan only appends to the trace. -/
theorem partitionLoop_steps_append (pivot low high : Int) :
    ∀ (fuel : Nat) (j i : Int) (s : QSState),
      ∃ ts, (QuickSortVisualizer.partitionLoop pivot low high fuel j i s).2.steps =
        s.steps ++ ts := by
  intro fuel
  induction fuel with
  | zero => intro j i s; exact ⟨[], (List.append_nil _).symm⟩
  | succ fuel ih =>
    intro j i s
    by_cases hjh : j < high
    · simp only [QuickSortVisualizer.partitionLoop, if_pos hjh, recordStepQ_distances]
      by_cases hcond : intAt s.distances j < pivot
      · rw [if_pos hcond]
        exact exists_append_trans (exists_append_trans ⟨_, rfl⟩ ⟨_, rfl⟩)
          (ih (j + 1) (i + 1) _)
      · rw [if_neg hcond]
        exact exists_append_trans ⟨_, rfl⟩ (ih (j + 1) i _)
    · simp only [QuickSortVisualizer.partitionLoop, if_neg hjh]
      exact ⟨[], by simp⟩

/-- A partition call only appends to the trace. -/
theorem partition_steps_append (low high : Int) (s : QSState) :
    ∃ ts, (QuickSortVisualizer.partition low high s).2.steps = s.steps ++ ts := by
  unfold QuickSortVisualizer.partition
  have h0 : ∃ ts, (QuickSortVisualizer.recordStep "Choose pivot"
      ("Selected pivot: " ++ toString (intAt s.distances high) ++ "m (" ++
        strAt s.names high ++ ") at index " ++ toString high)
      high (-1) (-1) low high s).steps = s.steps ++ ts := ⟨_, rfl⟩
  refine exists_append_trans (exists_append_trans (exists_append_trans h0
    (partitionLoop_steps_append _ low high _ low (low - 1) _))
    ⟨[], (List.append_nil _).symm⟩) ⟨_, rfl⟩

/-- The recursive quicksort only appends to the trace. -/
theorem quicksort_steps_append :
    ∀ (fuel : Nat) (low high : Int) (s : QSState),
      ∃ ts, (QuickSortVisualizer.quicksort fuel low high s).steps = s.steps ++ ts := by
  intro fuel
  induction fuel with
  | zero => intro low high s; exact ⟨[], (List.append_nil _).symm⟩
  | succ fuel ih =>
    intro low high s
    by_cases hlh : low < high
    · simp only [QuickSortVisualizer.quicksort, if_pos hlh]
      have h0 : ∃ ts, (QuickSortVisualizer.recordStep "Partition"
          ("Sorting subarray from index " ++ toString low ++ " to " ++ toString high)
          (-1) (-1) (-1) low high s).steps = s.steps ++ ts := ⟨_, rfl⟩
      exact exists_append_trans
        (exists_append_trans (exists_append_trans h0 (partition_steps_append low high _))
          (ih low _ _))
        (ih _ high _)
    · simp only [QuickSortVisualizer.quicksort, if_neg hlh]
      exact ⟨[], by simp⟩

theorem intAt_listSwap {l : List Int} {i j k : Int}
    (hi : 0 ≤ i) (hi2 : i < (l.length : Int)) (hj : 0 ≤ j) (hj2 : j < (l.length : Int))
    (hk : 0 ≤ k) (hk2 : k < (l.length : Int)) :
    intAt (listSwap l i j) k =
      if k = j then intAt l i else if k = i then intAt l j else intAt l k :=
  getD_listSwap l 0 hi hi2 hj hj2 hk hk2

theorem strAt_listSwap {l : List String} {i j k : Int}
    (hi : 0 ≤ i) (hi2 : i < (l.length : Int)) (hj : 0 ≤ j) (hj2 : j < (l.length : Int))
    (hk : 0 ≤ k) (hk2 : k < (l.length : Int)) :
    strAt (listSwap l i j) k =
      if k = j then strAt l i else if k = i then strAt l j else strAt l k :=
  getD_listSwap l "" hi hi2 hj hj2 hk hk2

/-- Invariant of the Lomuto partition scan (`for (j = low; j < high; j++)`):
indices `[low, i]` hold values `< pivot`, indices `(i, j)` hold values
`≥ pivot`, the pivot cell `high` is untouched, cells outside `[low, high)`
are untouched, and the name/distance pairing is permuted. -/
theorem partitionLoop_spec (pivot low high : Int) :
    ∀ (fuel : Nat) (j i : Int) (s : QSState) (i' : Int) (s' : QSState),
      QuickSortVisualizer.partitionLoop pivot low high fuel j i s = (i', s') →
      (high - j).toNat ≤ fuel →
      s.names.length = s.distances.length →
      0 ≤ low → low ≤ j → j ≤ high → high < (s.distances.length : Int) →
      low - 1 ≤ i → i < j →
      intAt s.distances high = pivot →
      (∀ k : Int, low ≤ k → k ≤ i → intAt s.distances k < pivot) →
      (∀ k : Int, i < k → k < j → pivot ≤ intAt s.distances k) →
      (s'.distances.length = s.distances.length ∧
       s'.names.length = s.names.length ∧
       low - 1 ≤ i' ∧ i' < high ∧
       intAt s'.distances high = pivot ∧
       (∀ k : Int, low ≤ k → k ≤ i' → intAt s'.distances k < pivot) ∧
       (∀ k : Int, i' < k → k < high → pivot ≤ intAt s'.distances k) ∧
       (∀ k : Int, 0 ≤ k → k < (s.distances.length : Int) → (k < low ∨ high ≤ k) →
         intAt s'.distances k = intAt s.distances k ∧
         strAt s'.names k = strAt s.names k) ∧
       (s'.names.zip s'.distances).Perm (s.names.zip s.distances)) := by
  intro fuel
  induction fuel with
  | zero =>
    intro j i s i' s' heq hfuel hlen h0 hlj hjh hhn hi hij hpiv hA hB
    have hjh' : j = high := by omega
    simp only [QuickSortVisualizer.partitionLoop] at heq
    injection heq with h1 h2
    subst h1
    subst h2
    refine ⟨rfl, rfl, hi, by omega, hpiv, hA, ?_, ?_, List.Perm.refl _⟩
    · intro k hk1 hk2
      exact hB k hk1 (by omega)
    · intro k _ _ _
      exact ⟨rfl, rfl⟩
  | succ fuel ih =>
    intro j i s i' s' heq hfuel hlen h0 hlj hjh hhn hi hij hpiv hA hB
    by_cases hjh2 : j < high
    · simp only [QuickSortVisualizer.partitionLoop, if_pos hjh2,
        recordStepQ_distances] at heq
      by_cases hcond : intAt s.distances j < pivot
      · rw [if_pos hcond] at heq
        have hrec := ih (j + 1) (i + 1) _ i' s' heq (by omega)
          (by simp only [recordStepQ_names, recordStepQ_distances,
                swapBoth_names, swapBoth_distances, listSwap_length]
              omega)
          h0 (by omega) (by omega)
          (by simp only [recordStepQ_distances, swapBoth_distances, listSwap_length]
              omega)
          (by omega) (by omega)
          (by simp only [recordStepQ_distances, swapBoth_distances]
              rw [intAt_listSwap (by omega) (by omega) (by omega) (by omega)
                (by omega) (by omega)]
              rw [if_neg (by omega), if_neg (by omega)]
              exact hpiv)
          (by intro k hk1 hk2
              simp only [recordStepQ_distances, swapBoth_distances]
              rw [intAt_listSwap (by omega) (by omega) (by omega) (by omega)
                (by omega) (by omega)]
              by_cases hkj : k = j
              · rw [if_pos hkj]
                rw [show i + 1 = j from by omega]
                exact hcond
              · rw [if_neg hkj]
                by_cases hki : k = i + 1
                · rw [if_pos hki]
                  exact hcond
                · rw [if_neg hki]
                  exact hA k hk1 (by omega))
          (by intro k hk1 hk2
              simp only [recordStepQ_distances, swapBoth_distances]
              rw [intAt_listSwap (by omega) (by omega) (by omega) (by omega)
                (by omega) (by omega)]
              by_cases hkj : k = j
              · rw [if_pos hkj]
                exact hB (i + 1) (by omega) (by omega)
              · rw [if_neg hkj, if_neg (by omega)]
                exact hB k (by omega) (by omega))
        simp only [recordStepQ_names, recordStepQ_distances, swapBoth_names,
          swapBoth_distances, listSwap_length] at hrec
        obtain ⟨r1, r2, r3, r4, r5, r6, r7, r8, r9⟩ := hrec
        refine ⟨r1, r2, r3, r4, r5, r6, r7, ?_, ?_⟩
        · intro k hk1 hk2 hk3
          obtain ⟨e1, e2⟩ := r8 k hk1 hk2 hk3
          rw [e1, e2]
          rw [intAt_listSwap (by omega) (by omega) (by omega) (by omega) hk1 hk2,
            strAt_listSwap (by omega) (by omega) (by omega) (by omega) (by omega)
              (by omega)]
          rw [if_neg (by omega), if_neg (by omega), if_neg (by omega),
            if_neg (by omega)]
          exact ⟨rfl, rfl⟩
        · refine r9.trans ?_
          rw [zip_listSwap hlen (by omega) (by omega) (by omega) (by omega)]
          have hzlen : (s.names.zip s.distances).length = s.distances.length := by
            simp [hlen]
          exact listSwap_perm (l := s.names.zip s.distances) (by omega)
            (by omega) (by omega) (by omega)
      · rw [if_neg hcond] at heq
        have hrec := ih (j + 1) i _ i' s' heq (by omega)
          (by simp only [recordStepQ_names, recordStepQ_distances]; omega)
          h0 (by omega) (by omega)
          (by simp only [recordStepQ_distances]; omega)
          hi (by omega)
          (by simp only [recordStepQ_distances]; exact hpiv)
          (by intro k hk1 hk2
              simp only [recordStepQ_distances]
              exact hA k hk1 hk2)
          (by intro k hk1 hk2
              simp only [recordStepQ_distances]
              by_cases hkj : k = j
              · rw [hkj]
                omega
              · exact hB k hk1 (by omega))
        simp only [recordStepQ_names, recordStepQ_distances] at hrec
        exact hrec
    · have hjh' : j = high := by omega
      simp only [QuickSortVisualizer.partitionLoop, if_neg hjh2] at heq
      injection heq with h1 h2
      subst h1
      subst h2
      refine ⟨rfl, rfl, hi, by omega, hpiv, hA, ?_, ?_, List.Perm.refl _⟩
      · intro k hk1 hk2
        exact hB k hk1 (by omega)
      · intro k _ _ _
        exact ⟨rfl, rfl⟩

theorem getLast?_append_singleton {α : Type} (l : List α) (a : α) :
    (l ++ [a]).getLast? = some a := by
  induction l with
  | nil => rfl
  | cons x t ih =>
    obtain ⟨y, ys, hys⟩ : ∃ y ys, t ++ [a] = y :: ys := by
      cases t <;> exact ⟨_, _, rfl⟩
    rw [List.cons_append, hys, List.getLast?_cons_cons, ← hys, ih]

/-- Specification of `QuickSortVisualizer::partition` on `[low, high]`:
the returned pivot index `p` lies in `[low, high]`; afterwards every element
strictly left of `p` in the range is `<` the element at `p` and every element
right of it is `≥`; cells outside `[low, high]` are untouched; the
name/distance pairing is permuted; and the last recorded step is the
"Place pivot" step whose snapshot is the final arrays. -/
theorem partition_spec (low high : Int) (s : QSState) (p : Int) (s' : QSState)
    (heq : QuickSortVisualizer.partition low high s = (p, s'))
    (hlen : s.names.length = s.distances.length)
    (h0 : 0 ≤ low) (hlh : low < high) (hhn : high < (s.distances.length : Int)) :
    (s'.distances.length = s.distances.length ∧
     s'.names.length = s.names.length ∧
     low ≤ p ∧ p ≤ high ∧
     (∀ k : Int, low ≤ k → k < p → intAt s'.distances k < intAt s'.distances p) ∧
     (∀ k : Int, p < k → k ≤ high → intAt s'.distances p ≤ intAt s'.distances k) ∧
     (∀ k : Int, 0 ≤ k → k < (s.distances.length : Int) → (k < low ∨ high < k) →
       intAt s'.distances k = intAt s.distances k ∧
       strAt s'.names k = strAt s.names k) ∧
     (s'.names.zip s'.distances).Perm (s.names.zip s.distances) ∧
     (∃ st, s'.steps.getLast? = some st ∧ st.action = "Place pivot" ∧
       st.pivotIndex = p ∧ st.low = low ∧ st.high = high ∧
       st.array = s'.distances ∧ st.names = s'.names)) := by
  simp only [QuickSortVisualizer.partition] at heq
  obtain ⟨i1, s1', hloop⟩ :
      ∃ i1 s1', QuickSortVisualizer.partitionLoop (intAt s.distances high) low high
        ((high - low).toNat) low (low - 1)
        (QuickSortVisualizer.recordStep "Choose pivot"
          ("Selected pivot: " ++ toString (intAt s.distances high) ++ "m (" ++
            strAt s.names high ++ ") at index " ++ toString high)
          high (-1) (-1) low high s) = (i1, s1') :=
    ⟨_, _, rfl⟩
  rw [hloop] at heq
  injection heq with hp hs
  have hp' : i1 + 1 = p := hp
  have hloopSpec := partitionLoop_spec (intAt s.distances high) low high
    ((high - low).toNat) low (low - 1) _ i1 s1' hloop (by omega)
    (by simp only [recordStepQ_names, recordStepQ_distances]; omega)
    h0 le_rfl (by omega)
    (by simp only [recordStepQ_distances]; omega)
    (by omega) (by omega)
    (by simp only [recordStepQ_distances])
    (fun k hk1 hk2 => absurd hk1 (by omega))
    (fun k hk1 hk2 => absurd hk1 (by omega))
  simp only [recordStepQ_names, recordStepQ_distances] at hloopSpec
  obtain ⟨L1, L2, L3, L4, L5, L6, L7, L8, L9⟩ := hloopSpec
  have hd' : s'.distances = listSwap s1'.distances (i1 + 1) high := by
    rw [← hs]; rfl
  have hn' : s'.names = listSwap s1'.names (i1 + 1) high := by
    rw [← hs]; rfl
  have hlen1' : s1'.names.length = s1'.distances.length := by omega
  have hv : ∀ k : Int, 0 ≤ k → k < (s.distances.length : Int) →
      intAt s'.distances k =
        (if k = high then intAt s1'.distances (i1 + 1)
         else if k = i1 + 1 then intAt s1'.distances high
         else intAt s1'.distances k) := by
    intro k hk1 hk2
    rw [hd', intAt_listSwap (by omega) (by omega) (by omega) (by omega) hk1 (by omega)]
  have hvn : ∀ k : Int, 0 ≤ k → k < (s.distances.length : Int) →
      strAt s'.names k =
        (if k = high then strAt s1'.names (i1 + 1)
         else if k = i1 + 1 then strAt s1'.names high
         else strAt s1'.names k) := by
    intro k hk1 hk2
    rw [hn', strAt_listSwap (by omega) (by omega) (by omega) (by omega) hk1 (by omega)]
  have hdp : intAt s'.distances p = intAt s.distances high := by
    rw [hv p (by omega) (by omega)]
    by_cases hph : p = high
    · rw [if_pos hph, show i1 + 1 = high from by omega]
      exact L5
    · rw [if_neg hph, if_pos (by omega)]
      exact L5
  refine ⟨?_, ?_, by omega, by omega, ?_, ?_, ?_, ?_, ?_⟩
  · rw [hd', listSwap_length]
    exact L1
  · rw [hn', listSwap_length]
    exact L2
  · intro k hk1 hk2
    rw [hdp, hv k (by omega) (by omega), if_neg (by omega), if_neg (by omega)]
    exact L6 k hk1 (by omega)
  · intro k hk1 hk2
    rw [hdp, hv k (by omega) (by omega)]
    by_cases hkh : k = high
    · rw [if_pos hkh]
      exact L7 (i1 + 1) (by omega) (by omega)
    · rw [if_neg hkh, if_neg (by omega)]
      exact L7 k (by omega) (by omega)
  · intro k hk1 hk2 hk3
    rw [hv k hk1 hk2, hvn k hk1 hk2, if_neg (by omega), if_neg (by omega),
      if_neg (by omega), if_neg (by omega)]
    exact L8 k hk1 hk2 (by omega)
  · rw [hn', hd', zip_listSwap hlen1' (by omega) (by omega) (by omega) (by omega)]
    have hzlen : (s1'.names.zip s1'.distances).length = s1'.distances.length := by
      simp [hlen1']
    exact (listSwap_perm (l := s1'.names.zip s1'.distances) (by omega) (by omega)
      (by omega) (by omega)).trans L9
  · obtain ⟨st, hst, hst1, hst2, hst3, hst4, hst5, hst6⟩ :
        ∃ st, s'.steps = s1'.steps ++ [st] ∧ st.action = "Place pivot" ∧
          st.pivotIndex = i1 + 1 ∧ st.low = low ∧ st.high = high ∧
          st.array = s'.distances ∧ st.names = s'.names := by
      rw [← hs]
      exact ⟨_, rfl, rfl, rfl, rfl, rfl, rfl, rfl⟩
    exact ⟨st, by rw [hst]; exact getLast?_append_singleton _ _, hst1,
      by omega, hst3, hst4, hst5, hst6⟩

/-- The partition scan preserves the lengths of both working arrays. -/
theorem partitionLoop_lengths (pivot low high : Int) :
    ∀ (fuel : Nat) (j i : Int) (s : QSState),
      ((QuickSortVisualizer.partitionLoop pivot low high fuel j i s).2.distances.length =
        s.distances.length ∧
       (QuickSortVisualizer.partitionLoop pivot low high fuel j i s).2.names.length =
        s.names.length) := by
  intro fuel
  induction fuel with
  | zero => intro j i s; exact ⟨rfl, rfl⟩
  | succ fuel ih =>
    intro j i s
    by_cases hjh : j < high
    · simp only [QuickSortVisualizer.partitionLoop, if_pos hjh, recordStepQ_distances]
      by_cases hcond : intAt s.distances j < pivot
      · rw [if_pos hcond]
        have hrec := ih (j + 1) (i + 1)
          (QuickSortVisualizer.recordStep "Swap"
            ("Swapped " ++
              strAt (QSState.swapBoth (i + 1) j
                (QuickSortVisualizer.recordStep "Comparing"
                  ("Compare " ++ toString (intAt s.distances j) ++ "m (" ++
                    strAt s.names j ++ ") with pivot " ++ toString pivot ++ "m")
                  high i j low high s)).names (i + 1) ++ " and " ++
              strAt (QSState.swapBoth (i + 1) j
                (QuickSortVisualizer.recordStep "Comparing"
                  ("Compare " ++ toString (intAt s.distances j) ++ "m (" ++
                    strAt s.names j ++ ") with pivot " ++ toString pivot ++ "m")
                  high i j low high s)).names j ++ " (both smaller than pivot)")
            high (i + 1) j low high
            (QSState.swapBoth (i + 1) j
              (QuickSortVisualizer.recordStep "Comparing"
                ("Compare " ++ toString (intAt s.distances j) ++ "m (" ++
                  strAt s.names j ++ ") with pivot " ++ toString pivot ++ "m")
                high i j low high s)))
        simp only [recordStepQ_distances, recordStepQ_names, swapBoth_distances,
          swapBoth_names, listSwap_length] at hrec
        exact hrec
      · rw [if_neg hcond]
        have hrec := ih (j + 1) i
          (QuickSortVisualizer.recordStep "Comparing"
            ("Compare " ++ toString (intAt s.distances j) ++ "m (" ++
              strAt s.names j ++ ") with pivot " ++ toString pivot ++ "m")
            high i j low high s)
        simp only [recordStepQ_distances, recordStepQ_names] at hrec
        exact hrec
    · simp only [QuickSortVisualizer.partitionLoop, if_neg hjh]
      exact ⟨by trivial, by trivial⟩

/-- The partition scan moves values around inside `[low, high]` only, so any
pointwise property of the segment's values is preserved; the boundary index
also stays in `[low - 1, high)`. -/
theorem partitionLoop_seg_values (pivot low high : Int) (P : Int → Prop) :
    ∀ (fuel : Nat) (j i : Int) (s : QSState) (i' : Int) (s' : QSState),
      QuickSortVisualizer.partitionLoop pivot low high fuel j i s = (i', s') →
      0 ≤ low → low ≤ j → j ≤ high → high < (s.distances.length : Int) →
      low - 1 ≤ i → i < j →
      (∀ k : Int, low ≤ k → k ≤ high → P (intAt s.distances k)) →
      ((low - 1 ≤ i' ∧ i' < high) ∧
       ∀ k : Int, low ≤ k → k ≤ high → P (intAt s'.distances k)) := by
  intro fuel
  induction fuel with
  | zero =>
    intro j i s i' s' heq h0 hlj hjh hhn hi hij hP
    simp only [QuickSortVisualizer.partitionLoop] at heq
    injection heq with h1 h2
    subst h1
    subst h2
    exact ⟨⟨hi, by omega⟩, hP⟩
  | succ fuel ih =>
    intro j i s i' s' heq h0 hlj hjh hhn hi hij hP
    by_cases hjh2 : j < high
    · simp only [QuickSortVisualizer.partitionLoop, if_pos hjh2,
        recordStepQ_distances] at heq
      by_cases hcond : intAt s.distances j < pivot
      · rw [if_pos hcond] at heq
        have hrec := ih (j + 1) (i + 1) _ i' s' heq h0 (by omega) (by omega)
          (by simp only [recordStepQ_distances, swapBoth_distances, listSwap_length]
              omega)
          (by omega) (by omega)
          (by intro k hk1 hk2
              simp only [recordStepQ_distances, swapBoth_distances]
              rw [intAt_listSwap (by omega) (by omega) (by omega) (by omega)
                (by omega) (by omega)]
              by_cases hkj : k = j
              · rw [if_pos hkj]
                exact hP (i + 1) (by omega) (by omega)
              · rw [if_neg hkj]
                by_cases hki : k = i + 1
                · rw [if_pos hki]
                  exact hP j (by omega) (by omega)
                · rw [if_neg hki]
                  exact hP k hk1 hk2)
        exact hrec
      · rw [if_neg hcond] at heq
        exact ih (j + 1) i _ i' s' heq h0 (by omega) (by omega)
          (by simp only [recordStepQ_distances]; omega)
          hi (by omega)
          (by intro k hk1 hk2
              simp only [recordStepQ_distances]
              exact hP k hk1 hk2)
    · simp only [QuickSortVisualizer.partitionLoop, if_neg hjh2] at heq
      injection heq with h1 h2
      subst h1
      subst h2
      exact ⟨⟨hi, by omega⟩, hP⟩

/-- A partition call moves values around inside `[low, high]` only. -/
theorem partition_seg_values (low high : Int) (s : QSState) (p : Int) (s' : QSState)
    (heq : QuickSortVisualizer.partition low high s = (p, s'))
    (h0 : 0 ≤ low) (hlh : low < high) (hhn : high < (s.distances.length : Int))
    (P : Int → Prop)
    (hP : ∀ k : Int, low ≤ k → k ≤ high → P (intAt s.distances k)) :
    ∀ k : Int, low ≤ k → k ≤ high → P (intAt s'.distances k) := by
  simp only [QuickSortVisualizer.partition] at heq
  obtain ⟨i1, s1', hloop⟩ :
      ∃ i1 s1', QuickSortVisualizer.partitionLoop (intAt s.distances high) low high
        ((high - low).toNat) low (low - 1)
        (QuickSortVisualizer.recordStep "Choose pivot"
          ("Selected pivot: " ++ toString (intAt s.distances high) ++ "m (" ++
            strAt s.names high ++ ") at index " ++ toString high)
          high (-1) (-1) low high s) = (i1, s1') :=
    ⟨_, _, rfl⟩
  rw [hloop] at heq
  injection heq with hp hs
  have hp' : i1 + 1 = p := hp
  have hseg := partitionLoop_seg_values (intAt s.distances high) low high P
    ((high - low).toNat) low (low - 1) _ i1 s1' hloop h0 le_rfl (by omega)
    (by simp only [recordStepQ_distances]; omega)
    (by omega) (by omega)
    (by intro k hk1 hk2
        simp only [recordStepQ_distances]
        exact hP k hk1 hk2)
  obtain ⟨⟨hi1a, hi1b⟩, hseg'⟩ := hseg
  have hlens := partitionLoop_lengths (intAt s.distances high) low high
    ((high - low).toNat) low (low - 1)
    (QuickSortVisualizer.recordStep "Choose pivot"
      ("Selected pivot: " ++ toString (intAt s.distances high) ++ "m (" ++
        strAt s.names high ++ ") at index " ++ toString high)
      high (-1) (-1) low high s)
  rw [hloop] at hlens
  have hlen1 : s1'.distances.length = s.distances.length := hlens.1
  have hd' : s'.distances = listSwap s1'.distances (i1 + 1) high := by
    rw [← hs]; rfl
  intro k hk1 hk2
  rw [hd', intAt_listSwap (by omega) (by omega) (by omega) (by omega)
    (by omega) (by omega)]
  by_cases hkh : k = high
  · rw [if_pos hkh]
    exact hseg' (i1 + 1) (by omega) (by omega)
  · rw [if_neg hkh]
    by_cases hki : k = i1 + 1
    · rw [if_pos hki]
      exact hseg' high (by omega) le_rfl
    · rw [if_neg hki]
      exact hseg' k hk1 hk2

/-- Specification of the recursive quicksort on `[low, high]`: the segment
ends up sorted non-decreasingly, cells outside the segment are untouched, the
name/distance pairing is globally permuted, and any pointwise property of the
segment's values is preserved. -/
theorem quicksort_spec :
    ∀ (fuel : Nat) (low high : Int) (s s' : QSState),
      QuickSortVisualizer.quicksort fuel low high s = s' →
      (high - low + 1).toNat ≤ fuel →
      s.names.length = s.distances.length →
      0 ≤ low → high < (s.distances.length : Int) →
      (s'.distances.length = s.distances.length ∧
       s'.names.length = s.names.length ∧
       (∀ k1 k2 : Int, low ≤ k1 → k1 ≤ k2 → k2 ≤ high →
         intAt s'.distances k1 ≤ intAt s'.distances k2) ∧
       (∀ k : Int, 0 ≤ k → k < (s.distances.length : Int) → (k < low ∨ high < k) →
         intAt s'.distances k = intAt s.distances k ∧
         strAt s'.names k = strAt s.names k) ∧
       (s'.names.zip s'.distances).Perm (s.names.zip s.distances) ∧
       (∀ P : Int → Prop,
         (∀ k : Int, low ≤ k → k ≤ high → P (intAt s.distances k)) →
         (∀ k : Int, low ≤ k → k ≤ high → P (intAt s'.distances k)))) := by
  intro fuel
  induction fuel with
  | zero =>
    intro low high s s' heq hfuel hlen h0 hhn
    simp only [QuickSortVisualizer.quicksort] at heq
    subst heq
    refine ⟨rfl, rfl, ?_, fun k _ _ _ => ⟨rfl, rfl⟩, List.Perm.refl _, fun P hP => hP⟩
    intro k1 k2 h1 h2 h3
    exact absurd (h1.trans (h2.trans h3)) (by omega)
  | succ fuel ih =>
    intro low high s s' heq hfuel hlen h0 hhn
    by_cases hlh : low < high
    · simp only [QuickSortVisualizer.quicksort, if_pos hlh] at heq
      obtain ⟨p, s2, hpart⟩ :
          ∃ p s2, QuickSortVisualizer.partition low high
            (QuickSortVisualizer.recordStep "Partition"
              ("Sorting subarray from index " ++ toString low ++ " to " ++
                toString high)
              (-1) (-1) (-1) low high s) = (p, s2) :=
        ⟨_, _, rfl⟩
      rw [hpart] at heq
      have heq2 : QuickSortVisualizer.quicksort fuel (p + 1) high
          (QuickSortVisualizer.quicksort fuel low (p - 1) s2) = s' := heq
      obtain ⟨s3, hqs1⟩ :
          ∃ s3, QuickSortVisualizer.quicksort fuel low (p - 1) s2 = s3 := ⟨_, rfl⟩
      rw [hqs1] at heq2
      have Hpart := partition_spec low high _ p s2 hpart
        (by simp only [recordStepQ_names, recordStepQ_distances]; exact hlen)
        h0 hlh
        (by simp only [recordStepQ_distances]; exact hhn)
      simp only [recordStepQ_names, recordStepQ_distances] at Hpart
      obtain ⟨P1, P2, P3, P4, PA, PB, POut, PPerm, -⟩ := Hpart
      have HsegPart : ∀ P : Int → Prop,
          (∀ k : Int, low ≤ k → k ≤ high → P (intAt s.distances k)) →
          (∀ k : Int, low ≤ k → k ≤ high → P (intAt s2.distances k)) := by
        intro P hP
        exact partition_seg_values low high _ p s2 hpart h0 hlh
          (by simp only [recordStepQ_distances]; exact hhn) P
          (by intro k hk1 hk2
              simp only [recordStepQ_distances]
              exact hP k hk1 hk2)
      have hlen2 : s2.names.length = s2.distances.length := by omega
      have ih1 := ih low (p - 1) s2 s3 hqs1 (by omega) hlen2 h0 (by omega)
      obtain ⟨Q1a, Q1b, Q1sorted, Q1out, Q1perm, Q1seg⟩ := ih1
      have hlen3 : s3.names.length = s3.distances.length := by omega
      have ih2 := ih (p + 1) high s3 s' heq2 (by omega) hlen3 (by omega) (by omega)
      obtain ⟨Q2a, Q2b, Q2sorted, Q2out, Q2perm, Q2seg⟩ := ih2
      have hs3p : intAt s3.distances p = intAt s2.distances p :=
        (Q1out p (by omega) (by omega) (by omega)).1
      have hs'p : intAt s'.distances p = intAt s3.distances p :=
        (Q2out p (by omega) (by omega) (by omega)).1
      have hlow_lt : ∀ k : Int, low ≤ k → k ≤ p - 1 →
          intAt s3.distances k < intAt s2.distances p := by
        intro k hk1 hk2
        exact Q1seg (fun v => v < intAt s2.distances p)
          (fun k' hk1' hk2' => PA k' hk1' (by omega)) k hk1 hk2
      have hs'low : ∀ k : Int, low ≤ k → k ≤ p - 1 →
          intAt s'.distances k = intAt s3.distances k := by
        intro k hk1 hk2
        exact (Q2out k (by omega) (by omega) (by omega)).1
      have hhigh_ge : ∀ k : Int, p + 1 ≤ k → k ≤ high →
          intAt s2.distances p ≤ intAt s3.distances k := by
        intro k hk1 hk2
        rw [(Q1out k (by omega) (by omega) (by omega)).1]
        exact PB k (by omega) hk2
      have hs'high : ∀ k : Int, p + 1 ≤ k → k ≤ high →
          intAt s2.distances p ≤ intAt s'.distances k := by
        intro k hk1 hk2
        exact Q2seg (fun v => intAt s2.distances p ≤ v) hhigh_ge k hk1 hk2
      refine ⟨by omega, by omega, ?_, ?_, ?_, ?_⟩
      · intro k1 k2 h1 h2 h3
        by_cases hk1p : k1 < p
        · by_cases hk2p : k2 < p
          · rw [hs'low k1 (by omega) (by omega), hs'low k2 (by omega) (by omega)]
            exact Q1sorted k1 k2 h1 h2 (by omega)
          · by_cases hk2p' : k2 = p
            · rw [hs'low k1 (by omega) (by omega), hk2p', hs'p, hs3p]
              exact le_of_lt (hlow_lt k1 (by omega) (by omega))
            · rw [hs'low k1 (by omega) (by omega)]
              exact le_of_lt (lt_of_lt_of_le (hlow_lt k1 (by omega) (by omega))
                (hs'high k2 (by omega) (by omega)))
        · by_cases hk1p' : k1 = p
          · by_cases hk2p : k2 = p
            · rw [hk2p]
              exact le_of_eq (by rw [hk1p'])
            · rw [hk1p', hs'p, hs3p]
              exact hs'high k2 (by omega) (by omega)
          · by_cases hk2p : k2 = p
            · exact absurd h2 (by omega)
            · exact Q2sorted k1 k2 (by omega) h2 h3
      · intro k hk1 hk2 hk3
        have e2 := Q2out k hk1 (by omega) (by omega)
        have e1 := Q1out k hk1 (by omega) (by omega)
        have e0 := POut k hk1 hk2 (by omega)
        exact ⟨by rw [e2.1, e1.1, e0.1], by rw [e2.2, e1.2, e0.2]⟩
      · exact Q2perm.trans (Q1perm.trans PPerm)
      · intro P hP k hk1 hk2
        have hseg2 := HsegPart P hP
        have hseg3 : ∀ k : Int, low ≤ k → k ≤ high → P (intAt s3.distances k) := by
          intro k' hk1' hk2'
          by_cases hk'p : k' ≤ p - 1
          · exact Q1seg P (fun m hm1 hm2 => hseg2 m hm1 (by omega)) k' hk1' hk'p
          · rw [(Q1out k' (by omega) (by omega) (by omega)).1]
            exact hseg2 k' hk1' hk2'
        by_cases hkp : p + 1 ≤ k
        · exact Q2seg P (fun m hm1 hm2 => hseg3 m (by omega) hm2) k hkp hk2
        · rw [(Q2out k (by omega) (by omega) (by omega)).1]
          exact hseg3 k hk1 hk2
    · simp only [QuickSortVisualizer.quicksort, if_neg hlh] at heq
      subst heq
      refine ⟨rfl, rfl, ?_, fun k _ _ _ => ⟨rfl, rfl⟩, List.Perm.refl _, fun P hP => hP⟩
      intro k1 k2 h1 h2 h3
      have hk : k1 = k2 := by omega
      rw [hk]

theorem zip_map_fst_snd {α β : Type} : ∀ (l : List (α × β)),
    (l.map Prod.fst).zip (l.map Prod.snd) = l := by
  intro l
  induction l with
  | nil => rfl
  | cons a t ih => simp [ih]

theorem intAt_natCast (l : List Int) (i : Nat) (hi : i < l.length) :
    intAt l (i : Int) = l[i] := by
  simp only [intAt, Int.toNat_natCast]
  exact List.getD_eq_getElem _ _ hi

theorem length_filter_range_ne : ∀ (n : Nat) (r : Int), 0 ≤ r → r < (n : Int) →
    ((List.range n).filter (fun i : Nat => (i : Int) ≠ r)).length = n - 1 := by
  intro n
  induction n with
  | zero => intro r h0 hr; exact absurd hr (by omega)
  | succ n ihn =>
    intro r h0 hr
    rw [List.range_succ, List.filter_append, List.length_append]
    by_cases hrn : r = (n : Int)
    · have h1 : (List.filter (fun i : Nat => decide ((i : Int) ≠ r)) [n]).length = 0 := by
        simp [hrn]
      have h2 : (List.range n).filter (fun i : Nat => decide ((i : Int) ≠ r)) =
          List.range n := by
        apply List.filter_eq_self.mpr
        intro a ha
        have : a < n := List.mem_range.mp ha
        simp only [decide_eq_true_eq]
        omega
      rw [h1, h2, List.length_range]
      omega
    · have h1 : (List.filter (fun i : Nat => decide ((i : Int) ≠ r)) [n]).length = 1 := by
        have hne : ((n : Int) ≠ r) := fun h => hrn h.symm
        simp [List.filter, hne]
      rw [h1, ihn r h0 (by omega)]
      omega

theorem getNode_some_bounds (g : Graph) (i : Int) (nd : Node)
    (h : g.getNode? i = some nd) : 0 ≤ i ∧ i < (g.nodes.length : Int) := by
  by_contra hb
  unfold Graph.getNode? at h
  rw [dif_neg hb] at h
  exact Option.noConfusion h

/-- Claim C2: for every graph and valid reference node id, the response's
`sortedLocations` are non-decreasing by distance, their (name, distance)
pairs are a permutation of the pairs computed in preprocessing (one pair per
non-reference node), and their length is the node count minus one. -/
theorem claim_C2_quicksort_sorted_perm (g : Graph) (refId : Int)
    (resp : SortResponse) (h : QuickSortVisualizer.sort g refId = .ok resp) :
    ∃ refNode, g.getNode? refId = some refNode ∧
      resp.sortedLocations.Pairwise (fun a b : String × Int => a.2 ≤ b.2) ∧
      resp.sortedLocations.Perm (computePairs g refNode refId) ∧
      resp.sortedLocations.length = g.nodes.length - 1 := by
  unfold QuickSortVisualizer.sort at h
  cases hg : g.getNode? refId with
  | none =>
    rw [hg] at h
    exact absurd h (by simp)
  | some refNode =>
    rw [hg] at h
    simp only [Except.ok.injEq] at h
    have hb := getNode_some_bounds g refId refNode hg
    have hPlen : (computePairs g refNode refId).length = g.nodes.length - 1 := by
      simp only [computePairs, List.length_map]
      exact length_filter_range_ne g.nodes.length refId hb.1 hb.2
    refine ⟨refNode, rfl, ?_⟩
    rw [← h]
    simp only [recordStepQ_names, recordStepQ_distances]
    by_cases hemp : ((computePairs g refNode refId).map Prod.snd).isEmpty = true
    · simp only [if_pos hemp, recordStepQ_names, recordStepQ_distances]
      have hPnil : computePairs g refNode refId = [] := by
        rcases hc : computePairs g refNode refId with _ | ⟨a, t⟩
        · rfl
        · rw [hc] at hemp
          simp at hemp
      rw [zip_map_fst_snd]
      rw [hPnil] at hPlen ⊢
      exact ⟨List.Pairwise.nil, List.Perm.refl _, hPlen⟩
    · simp only [if_neg hemp]
      set P := computePairs g refNode refId with hPdef
      set S1 := QuickSortVisualizer.recordStep "Initial array"
        ("Sorting " ++ toString (P.map Prod.snd).length ++
         " buildings by distance from " ++ refNode.name)
        (-1) (-1) (-1) 0 (((P.map Prod.snd).length : Int) - 1)
        { steps := ([] : List SortStep), stepNum := 0,
          distances := P.map Prod.snd, names := P.map Prod.fst } with hS1def
      have hS1d : S1.distances = P.map Prod.snd := rfl
      have hS1n : S1.names = P.map Prod.fst := rfl
      have H := quicksort_spec (P.map Prod.snd).length 0
        (((P.map Prod.snd).length : Int) - 1) S1 _ rfl
        (by omega)
        (by rw [hS1n, hS1d]; simp)
        le_rfl
        (by rw [hS1d]; omega)
      set s2 := QuickSortVisualizer.quicksort (P.map Prod.snd).length 0
        (((P.map Prod.snd).length : Int) - 1) S1 with hs2def
      obtain ⟨HL1, HL2, Hsorted, -, Hperm, -⟩ := H
      have hdl : s2.distances.length = (P.map Prod.snd).length := by
        rw [HL1, hS1d]
      have hnl : s2.names.length = (P.map Prod.snd).length := by
        rw [HL2, hS1n]
        simp
      have hzl : (s2.names.zip s2.distances).length = (P.map Prod.snd).length := by
        rw [List.length_zip, hdl, hnl, min_self]
      have hA : (s2.names.zip s2.distances).Pairwise
          (fun a b : String × Int => a.2 ≤ b.2) := by
        rw [List.pairwise_iff_getElem]
        intro i j hi hj hij
        simp only [List.getElem_zip]
        have hi' : i < s2.distances.length := by omega
        have hj' : j < s2.distances.length := by omega
        have hs := Hsorted (i : Int) (j : Int) (by omega) (by omega) (by omega)
        rw [intAt_natCast s2.distances i hi', intAt_natCast s2.distances j hj'] at hs
        exact hs
      have hzz : S1.names.zip S1.distances = P := by
        rw [hS1n, hS1d]
        exact zip_map_fst_snd P
      have hB : (s2.names.zip s2.distances).Perm P := by
        rw [← hzz]
        exact Hperm
      have hC : (s2.names.zip s2.distances).length = g.nodes.length - 1 := by
        rw [hzl, List.length_map]
        exact hPlen
      exact ⟨hA, hB, hC⟩

theorem claim_C2_witness :
    ∃ resp, QuickSortVisualizer.sort
        ⟨[⟨0, "A", "t", 0, 0⟩, ⟨1, "B", "t", 3, 4⟩,
          ⟨2, "C", "t", 0, 5⟩, ⟨3, "D", "t", 1, 1⟩]⟩ 0 = .ok resp ∧
      ∃ refNode,
        Graph.getNode? ⟨[⟨0, "A", "t", 0, 0⟩, ⟨1, "B", "t", 3, 4⟩,
          ⟨2, "C", "t", 0, 5⟩, ⟨3, "D", "t", 1, 1⟩]⟩ 0 = some refNode ∧
        resp.sortedLocations.Pairwise (fun a b : String × Int => a.2 ≤ b.2) ∧
        resp.sortedLocations.Perm
          (computePairs ⟨[⟨0, "A", "t", 0, 0⟩, ⟨1, "B", "t", 3, 4⟩,
            ⟨2, "C", "t", 0, 5⟩, ⟨3, "D", "t", 1, 1⟩]⟩ refNode 0) ∧
        resp.sortedLocations.length =
          ([⟨0, "A", "t", 0, 0⟩, ⟨1, "B", "t", 3, 4⟩,
            ⟨2, "C", "t", 0, 5⟩, ⟨3, "D", "t", 1, 1⟩] : List Node).length - 1 :=
  ⟨_, rfl, claim_C2_quicksort_sorted_perm
    ⟨[⟨0, "A", "t", 0, 0⟩, ⟨1, "B", "t", 3, 4⟩,
      ⟨2, "C", "t", 0, 5⟩, ⟨3, "D", "t", 1, 1⟩]⟩ 0 _ rfl⟩

/-- Claim C4: after the "Place pivot" step recorded by `partition` with
resulting pivot index `p` over range `[low, high]`, the snapshot stored in
that step has every element at an index in `[low, p-1]` strictly below the
pivot's distance and every element at an index in `[p+1, high]` at or above
the pivot's distance. -/
theorem claim_C4_place_pivot_invariant (low high : Int) (s : QSState)
    (p : Int) (s' : QSState)
    (heq : QuickSortVisualizer.partition low high s = (p, s'))
    (hlen : s.names.length = s.distances.length)
    (h0 : 0 ≤ low) (hlh : low < high) (hhn : high < (s.distances.length : Int)) :
    ∃ st, s'.steps.getLast? = some st ∧ st.action = "Place pivot" ∧
      st.pivotIndex = p ∧ st.low = low ∧ st.high = high ∧
      (∀ k : Int, low ≤ k → k ≤ p - 1 → intAt st.array k < intAt st.array p) ∧
      (∀ k : Int, p + 1 ≤ k → k ≤ high → intAt st.array p ≤ intAt st.array k) := by
  obtain ⟨-, -, -, -, PA, PB, -, -, st, hlast, hact, hpiv, hlow, hhigh, harr, -⟩ :=
    partition_spec low high s p s' heq hlen h0 hlh hhn
  refine ⟨st, hlast, hact, hpiv, hlow, hhigh, ?_, ?_⟩
  · intro k hk1 hk2
    rw [harr]
    exact PA k hk1 (by omega)
  · intro k hk1 hk2
    rw [harr]
    exact PB k (by omega) hk2

theorem claim_C4_witness :
    ((["a", "b", "c"] : List String).length = ([3, 1, 2] : List Int).length ∧
     0 ≤ (0 : Int) ∧ (0 : Int) < 2 ∧
     (2 : Int) < (([3, 1, 2] : List Int).length : Int)) ∧
    (∃ st,
      ((QuickSortVisualizer.partition 0 2
          ⟨[], 0, [3, 1, 2], ["a", "b", "c"]⟩).2).steps.getLast? = some st ∧
      st.action = "Place pivot" ∧
      st.pivotIndex = (QuickSortVisualizer.partition 0 2
          ⟨[], 0, [3, 1, 2], ["a", "b", "c"]⟩).1 ∧
      st.low = 0 ∧ st.high = 2 ∧
      (∀ k : Int, 0 ≤ k →
        k ≤ (QuickSortVisualizer.partition 0 2
          ⟨[], 0, [3, 1, 2], ["a", "b", "c"]⟩).1 - 1 →
        intAt st.array k <
          intAt st.array (QuickSortVisualizer.partition 0 2
            ⟨[], 0, [3, 1, 2], ["a", "b", "c"]⟩).1) ∧
      (∀ k : Int,
        (QuickSortVisualizer.partition 0 2
          ⟨[], 0, [3, 1, 2], ["a", "b", "c"]⟩).1 + 1 ≤ k →
        k ≤ 2 →
        intAt st.array (QuickSortVisualizer.partition 0 2
          ⟨[], 0, [3, 1, 2], ["a", "b", "c"]⟩).1 ≤ intAt st.array k)) :=
  ⟨⟨by decide, by decide, by decide, by decide⟩,
   claim_C4_place_pivot_invariant 0 2 ⟨[], 0, [3, 1, 2], ["a", "b", "c"]⟩
     (QuickSortVisualizer.partition 0 2 ⟨[], 0, [3, 1, 2], ["a", "b", "c"]⟩).1
     (QuickSortVisualizer.partition 0 2 ⟨[], 0, [3, 1, 2], ["a", "b", "c"]⟩).2
     rfl (by decide) (by decide) (by decide) (by decide)⟩

theorem getD_append_left {α : Type} (l l' : List α) (d : α) (k : Nat)
    (hk : k < l.length) : (l ++ l').getD k d = l.getD k d := by
  rw [List.getD_eq_getElem?_getD, List.getD_eq_getElem?_getD,
    List.getElem?_append_left hk]

/-- Claim C3: every recorded step's array/name payload is a value copy taken
at the moment `recordStep` is called: the quicksort `recordStep` appends one
step whose `array`/`names` equal the working arrays at call time, the search
`recordStep` likewise only appends, the working-array mutations (`swapBoth`,
i.e. the paired `swap` calls) never touch the recorded steps, and a whole
quicksort run leaves every previously recorded step unchanged. -/
theorem claim_C3_snapshot_deep_copy :
    (∀ (action explanation : String) (pivot lft rgt low high : Int) (s : QSState),
      ∃ st, (QuickSortVisualizer.recordStep action explanation
          pivot lft rgt low high s).steps = s.steps ++ [st] ∧
        st.array = s.distances ∧ st.names = s.names) ∧
    (∀ (action explanation : String) (lft rgt mid compareNode : Int)
        (found : Bool) (s : BSState),
      ∃ st, (BinarySearchVisualizer.recordStep action explanation
          lft rgt mid compareNode found s).steps = s.steps ++ [st]) ∧
    (∀ (i j : Int) (s : QSState), (QSState.swapBoth i j s).steps = s.steps) ∧
    (∀ (fuel : Nat) (low high : Int) (s : QSState) (k : Nat),
      k < s.steps.length →
      (QuickSortVisualizer.quicksort fuel low high s).steps.getD k default
        = s.steps.getD k default) := by
  refine ⟨?_, ?_, ?_, ?_⟩
  · intro action explanation pivot lft rgt low high s
    exact ⟨_, rfl, rfl, rfl⟩
  · intro action explanation lft rgt mid compareNode found s
    exact ⟨_, rfl⟩
  · intro i j s
    rfl
  · intro fuel low high s k hk
    obtain ⟨ts, hts⟩ := quicksort_steps_append fuel low high s
    rw [hts]
    exact getD_append_left s.steps ts default k hk

theorem claim_C3_witness :
    (0 : Nat) < (QSState.mk [⟨0, "a", "b", [9], ["x"], -1, -1, -1, 0, 0⟩]
      1 [3, 1] ["p", "q"]).steps.length ∧
    (QuickSortVisualizer.quicksort 2 0 1
        (QSState.mk [⟨0, "a", "b", [9], ["x"], -1, -1, -1, 0, 0⟩]
          1 [3, 1] ["p", "q"])).steps.getD 0 default
      = (QSState.mk [⟨0, "a", "b", [9], ["x"], -1, -1, -1, 0, 0⟩]
          1 [3, 1] ["p", "q"]).steps.getD 0 default :=
  ⟨by decide, claim_C3_snapshot_deep_copy.2.2.2 2 0 1
    (QSState.mk [⟨0, "a", "b", [9], ["x"], -1, -1, -1, 0, 0⟩]
      1 [3, 1] ["p", "q"]) 0 (by decide)⟩

theorem claim_C10_witness :
    (BinarySearchVisualizer.search "B"
      [⟨0, "A", "t", 0, 0⟩, ⟨1, "B", "t", 1, 1⟩]).found = true ∧
    ∃ pre chk fnd,
      (BinarySearchVisualizer.search "B"
        [⟨0, "A", "t", 0, 0⟩, ⟨1, "B", "t", 1, 1⟩]).steps = pre ++ [chk, fnd] ∧
      (∀ st ∈ pre, st.found = false) ∧
      chk.found = false ∧ chk.action = "Checking middle element" ∧
      chk.mid = fnd.mid ∧
      fnd.found = true ∧ fnd.action = "Found!" :=
  ⟨by decide, (claim_C10_single_found_step "B"
    [⟨0, "A", "t", 0, 0⟩, ⟨1, "B", "t", 1, 1⟩]).2.2 (by decide)⟩
